import Mathlib

/-!
Verification of the Bazel test-orchestration core of `uber/vscode-go`.

The development shallowly embeds the components of the core:
the error-message collector (`getErrorMessageCollector`), the build-event
stream parser (`processBuildEvents`), the XML test-report converter
(`testResultXMLToGoTestOutput`), the Bazel argument builder (`getBazelArgs`),
the coverage aggregation (`lcovLinesToEditorRanges`, `processLcovFiles`),
and the test-identity resolver (`resolveTestName`, `formatTestCaseForFilter`,
`resolveSubtest`).  JavaScript strings are modelled as Lean `String`s,
JSON values as an inductive `JSValue`, and the mutable TestItem tree as an
arena of nodes indexed by allocation order.
-/

set_option autoImplicit false

namespace VBazel

/-! ### JavaScript string helpers -/

/-- Drops `p` from the front of `cs` when `p` is an initial run of `cs`. -/
def stripLead : List Char → List Char → Option (List Char)
  | [], cs => some cs
  | _ :: _, [] => none
  | p :: ps, c :: cs => if p = c then stripLead ps cs else none

/-- Splits on newline characters, accumulating the current segment in
reverse; tail-call structure of the JS `String.prototype.split` with a
one-character separator. -/
def splitNlAux : List Char → List Char → List String
  | [], acc => [⟨acc.reverse⟩]
  | c :: rest, acc =>
    if c = '\n' then ⟨acc.reverse⟩ :: splitNlAux rest []
    else splitNlAux rest (c :: acc)

/-- JS `s.split('\n')`: every maximal newline-free segment, in order,
including empty segments (so a trailing newline yields a final `""`). -/
def jsSplitNl (s : String) : List String :=
  splitNlAux s.data []

/-- Membership of a character in the JS regex class `\s`, over the whitespace
characters that occur in the modelled stderr text (ASCII whitespace). -/
def isJsWhitespace (c : Char) : Bool :=
  c = ' ' || c = '\t' || c = '\n' || c = '\r' || c = '\x0b' || c = '\x0c'

/-! ### Error-message collector (`getErrorMessageCollector`) -/

/-- Whether `\s` matches the head of `cs`. -/
def wsHead : List Char → Bool
  | c :: _ => isJsWhitespace c
  | [] => false

/-- Whether the pattern `(ERROR:|Internal error thrown during build.)\s`
matches at the start of `cs` (the `.` of the source pattern is an unescaped
regex dot, matching any character except a newline). -/
def errorIntroAt (cs : List Char) : Bool :=
  match stripLead "ERROR:".data cs with
  | some rest => wsHead rest
  | none =>
    match stripLead "Internal error thrown during build".data cs with
    | some (c :: rest) => c ≠ '\n' && wsHead rest
    | _ => false

/-- Multiline (`m` flag) search for `errorIntroAt`: the candidate positions are
the start of the string and every position following a newline.  Returns the
index of the first match, as `RegExp.exec` does for the source pattern. -/
def errAux : Nat → Bool → List Char → Option Nat
  | i, atStart, [] => if atStart && errorIntroAt [] then some i else none
  | i, atStart, c :: rest =>
    if atStart && errorIntroAt (c :: rest) then some i
    else errAux (i + 1) (decide (c = '\n')) rest

/-- Index of the first match of the error-introduction pattern (`regError`). -/
def regErrorExec (m : String) : Option Nat :=
  errAux 0 true m.data

/-- Test for the pattern `^(DEBUG|INFO|WARN):` (`regNonErrorLog`). -/
def regNonErrorLog (m : String) : Bool :=
  (stripLead "DEBUG:".data m.data).isSome ||
    (stripLead "INFO:".data m.data).isSome ||
    (stripLead "WARN:".data m.data).isSome

/-- Consumes a nonempty run of digits (`\d+`), returning the remainder. -/
def digits1 : List Char → Option (List Char)
  | c :: rest => if c.isDigit then some (rest.dropWhile Char.isDigit) else none
  | [] => none

/-- Test for the pattern `^\[\d+ \/ \d+\]` (`regProgress`). -/
def regProgress (m : String) : Bool :=
  match m.data with
  | '[' :: rest =>
    match digits1 rest with
    | some (' ' :: '/' :: ' ' :: rest2) =>
      match digits1 rest2 with
      | some (']' :: _) => true
      | _ => false
    | _ => false
  | _ => false

/-- The closure state of `getErrorMessageCollector`: the pending-error flag
`sawError` and the accumulated list `output`. -/
structure CollectorState where
  sawError : Bool
  output : List String
  deriving Repr, DecidableEq

/-- Fresh collector state, as built by `getErrorMessageCollector`. -/
def collectorInit : CollectorState := ⟨false, []⟩

/-- One call of the function returned by `getErrorMessageCollector`.  A `none`
or empty argument is the falsy case `!msg` and leaves the state unchanged;
an error-introduction match appends the line from the match index onward and
sets `sawError`; otherwise a continuation-eligible line is appended when
`sawError` is set, and `sawError` is cleared. -/
def updateErrorMessages (st : CollectorState) (msg : Option String) : CollectorState :=
  match msg with
  | none => st
  | some m =>
    if m = "" then st
    else
      match regErrorExec m with
      | some i => { st with output := st.output ++ [m.drop i], sawError := true }
      | none =>
        if st.sawError && !(regNonErrorLog m) && !(regProgress m) then
          { sawError := false, output := st.output ++ [m] }
        else { st with sawError := false }

/-- Feeding a list of lines to the collector, one call per line. -/
def collectorRun (lines : List String) : CollectorState :=
  lines.foldl (fun st l => updateErrorMessages st (some l)) collectorInit

end VBazel

namespace VBazel

/-! ### Claim C4 -/

/-- Claim C4, counterexample: after the error line `"ERROR: boom"`, the two
continuation-eligible lines `"alpha"` and `"beta"` are both neither
error-introduction, nor log-prefix, nor progress lines, yet only the first is
appended: the collector clears `sawError` after appending `"alpha"`, so
`"beta"` is dropped, refuting "a sequence of k such continuation lines after
one error line results in all k lines being appended". -/
theorem C4_counterexample :
    regErrorExec "alpha" = none ∧ regNonErrorLog "alpha" = false ∧ regProgress "alpha" = false ∧
    regErrorExec "beta" = none ∧ regNonErrorLog "beta" = false ∧ regProgress "beta" = false ∧
    (collectorRun ["ERROR: boom", "alpha", "beta"]).output = ["ERROR: boom", "alpha"] ∧
    ¬ (collectorRun ["ERROR: boom", "alpha", "beta"]).output
        = ["ERROR: boom", "alpha", "beta"] := by
  decide

/-- Claim C4 (amended): after an error-introduction line sets `sawError`, the
next call with a continuation-eligible line (neither error-introduction, nor
DEBUG/INFO/WARN log prefix, nor progress-counter prefix) appends that line
verbatim and clears `sawError`; consequently a second consecutive
continuation-eligible line is not appended, so of k continuation lines exactly
the first is kept. -/
theorem C4_amended (st : CollectorState) (m₁ m₂ : String)
    (hsaw : st.sawError = true)
    (h₁ : m₁ ≠ "") (he₁ : regErrorExec m₁ = none)
    (hl₁ : regNonErrorLog m₁ = false) (hp₁ : regProgress m₁ = false)
    (h₂ : m₂ ≠ "") (he₂ : regErrorExec m₂ = none)
    (hl₂ : regNonErrorLog m₂ = false) (hp₂ : regProgress m₂ = false) :
    updateErrorMessages st (some m₁) = ⟨false, st.output ++ [m₁]⟩ ∧
    updateErrorMessages (updateErrorMessages st (some m₁)) (some m₂)
      = ⟨false, st.output ++ [m₁]⟩ := by
  have step1 : updateErrorMessages st (some m₁) = ⟨false, st.output ++ [m₁]⟩ := by
    simp [updateErrorMessages, h₁, he₁, hsaw, hl₁, hp₁]
  refine ⟨step1, ?_⟩
  rw [step1]
  simp [updateErrorMessages, h₂, he₂, hl₂, hp₂]

/-- Claim C4, witness for the amended theorem at a concrete state and lines. -/
theorem C4_witness :
    updateErrorMessages (updateErrorMessages ⟨true, ["ERROR: x"]⟩ (some "alpha")) (some "beta")
      = ⟨false, ["ERROR: x", "alpha"]⟩ :=
  (C4_amended ⟨true, ["ERROR: x"]⟩ "alpha" "beta" rfl (by decide) (by decide) (by decide)
    (by decide) (by decide) (by decide) (by decide) (by decide)).2

/-! ### XML test-report converter (`testResultXMLToGoTestOutput`) -/

/-- A `failure` or `error` child element of a test case; `text` is the free
text content (`entry._` in the parsed document). -/
structure XMLEntry where
  text : String
  deriving Repr, DecidableEq

/-- One `testcase` element of the parsed report.  `name` and `time` are the
`$.name` and `$.time` attributes (the duration attribute is kept as the
attribute string it is parsed from); `failure`, `error` and `skipped` model
presence of the corresponding child elements (`xml2js` yields an array of
elements when present, and no key at all when absent). -/
structure TestCaseXML where
  name : String
  time : String
  failure : Option (List XMLEntry) := none
  error : Option (List XMLEntry) := none
  skipped : Bool := false
  deriving Repr, DecidableEq

/-- One `testsuite` element: the `$.name` attribute and the optional list of
`testcase` children (`suite.testcase` is absent when no case has data). -/
structure TestSuiteXML where
  name : String
  testcase : Option (List TestCaseXML) := none
  deriving Repr, DecidableEq

/-- The parsed report document: `resultData.testsuites.testsuite`. -/
structure TestResultXML where
  testsuite : List TestSuiteXML
  deriving Repr, DecidableEq

/-- The upstream event record (`GoTestOutput` from `testUtils`), with the
fields the converter sets.  `Elapsed` is parameterised by the numeric type
produced by the JS `Number` coercion of the duration attribute. -/
structure GoTestOutput (α : Type) where
  Action : String
  Package : String
  Test : String
  Output : Option String := none
  Elapsed : Option α := none
  deriving Repr, DecidableEq

/-- The action determined for one test case: `fail` when a failure element
exists, else `errored` when an error element exists, else `skip` when skipped,
else `pass`. -/
def caseAction (c : TestCaseXML) : String :=
  match c.failure with
  | some _ => "fail"
  | none =>
    match c.error with
    | some _ => "errored"
    | none => if c.skipped then "skip" else "pass"

/-- The message lines collected for one test case: each failure (or error)
entry's free text split on newlines, pushed in order
(`messages.push(...entry._.split('\n'))`). -/
def caseMessages (c : TestCaseXML) : List String :=
  match c.failure with
  | some entries => entries.foldl (fun ms e => ms ++ jsSplitNl e.text) []
  | none =>
    match c.error with
    | some entries => entries.foldl (fun ms e => ms ++ jsSplitNl e.text) []
    | none => []

/-- The converter: for each suite carrying test-case data, for each case,
push one `output` event per collected message line and then the terminal
event carrying `Elapsed := toNum (c.time)` (the source's
`Number(currTestCase.$.time)`, with the numeric coercion `toNum` passed in). -/
def testResultXMLToGoTestOutput {α : Type} (toNum : String → α) (resultData : TestResultXML) :
    List (GoTestOutput α) :=
  resultData.testsuite.foldl
    (fun results suite =>
      match suite.testcase with
      | none => results
      | some cases =>
        cases.foldl
          (fun results c =>
            (caseMessages c).foldl
                (fun rs m =>
                  rs ++ [{ Action := "output", Output := some (m ++ "\n"),
                           Package := suite.name, Test := c.name }])
                results
              ++ [{ Action := caseAction c, Package := suite.name, Test := c.name,
                    Elapsed := some (toNum c.time) }])
          results)
    []

/-- The event block of a single test case: its `output` events in message
order, immediately followed by its terminal event. -/
def caseEvents {α : Type} (toNum : String → α) (pkg : String) (c : TestCaseXML) :
    List (GoTestOutput α) :=
  (caseMessages c).map
      (fun m => { Action := "output", Output := some (m ++ "\n"), Package := pkg, Test := c.name })
    ++ [{ Action := caseAction c, Package := pkg, Test := c.name, Elapsed := some (toNum c.time) }]

/-- The events contributed by one suite. -/
def suiteEvents {α : Type} (toNum : String → α) (suite : TestSuiteXML) : List (GoTestOutput α) :=
  match suite.testcase with
  | none => []
  | some cases => cases.flatMap (caseEvents toNum suite.name)

theorem foldl_push_eq_map {α β : Type} (f : α → β) :
    ∀ (ms : List α) (acc : List β),
      ms.foldl (fun rs m => rs ++ [f m]) acc = acc ++ ms.map f := by
  intro ms
  induction ms with
  | nil => intro acc; simp
  | cons m rest ih => intro acc; simp [List.foldl_cons, ih]

theorem foldl_caseStep_eq_bind {α : Type} (toNum : String → α) (pkg : String) :
    ∀ (cases : List TestCaseXML) (acc : List (GoTestOutput α)),
      cases.foldl
          (fun results c =>
            (caseMessages c).foldl
                (fun rs m =>
                  rs ++ [{ Action := "output", Output := some (m ++ "\n"),
                           Package := pkg, Test := c.name }])
                results
              ++ [{ Action := caseAction c, Package := pkg, Test := c.name,
                    Elapsed := some (toNum c.time) }])
          acc
        = acc ++ cases.flatMap (caseEvents toNum pkg) := by
  intro cases
  induction cases with
  | nil => intro acc; simp
  | cons c rest ih =>
    intro acc
    rw [List.foldl_cons, ih]
    simp [caseEvents, foldl_push_eq_map, List.append_assoc]

/-- Structure of the converter output: the concatenation, in document order,
of each suite's case blocks. -/
theorem testResultXML_eq_bind {α : Type} (toNum : String → α) (doc : TestResultXML) :
    testResultXMLToGoTestOutput toNum doc = doc.testsuite.flatMap (suiteEvents toNum) := by
  show doc.testsuite.foldl _ [] = _
  have main : ∀ (suites : List TestSuiteXML) (acc : List (GoTestOutput α)),
      suites.foldl
          (fun results suite =>
            match suite.testcase with
            | none => results
            | some cases =>
              cases.foldl
                (fun results c =>
                  (caseMessages c).foldl
                      (fun rs m =>
                        rs ++ [{ Action := "output", Output := some (m ++ "\n"),
                                 Package := suite.name, Test := c.name }])
                      results
                    ++ [{ Action := caseAction c, Package := suite.name, Test := c.name,
                          Elapsed := some (toNum c.time) }])
                results)
          acc
        = acc ++ suites.flatMap (suiteEvents toNum) := by
    intro suites
    induction suites with
    | nil => intro acc; simp
    | cons s rest ih =>
      intro acc
      rw [List.foldl_cons, ih]
      cases h : s.testcase with
      | none => simp [suiteEvents, h]
      | some cases => simp [suiteEvents, h, foldl_caseStep_eq_bind, List.append_assoc]
  simpa using main doc.testsuite []

theorem foldl_appendSeg_eq_flatMap {α β : Type} (f : α → List β) :
    ∀ (entries : List α) (acc : List β),
      entries.foldl (fun ms e => ms ++ f e) acc = acc ++ entries.flatMap f := by
  intro entries
  induction entries with
  | nil => intro acc; simp
  | cons e rest ih => intro acc; simp [List.foldl_cons, ih]

theorem flatMap_suiteEvents_filter {α : Type} (toNum : String → α) (l : List TestSuiteXML) :
    l.flatMap (suiteEvents toNum)
      = (l.filter (fun s => s.testcase.isSome)).flatMap (suiteEvents toNum) := by
  induction l with
  | nil => rfl
  | cons s rest ih =>
    cases h : s.testcase with
    | none => simp [List.flatMap_cons, suiteEvents, h, ih]
    | some cases => simp [List.flatMap_cons, suiteEvents, h, ih]

/-! ### Claim C2 -/

/-- Concrete report document for claim C2: one suite with one failing case
whose failure free text is `"a\n"` (a trailing newline). -/
def c2doc : TestResultXML :=
  { testsuite :=
      [{ name := "p",
         testcase := some [{ name := "t", time := "1", failure := some [⟨"a\n"⟩] }] }] }

/-- Claim C2, counterexample: splitting the failure text `"a\n"` on newlines
yields one non-empty line, but the converter emits two `output` events — one
per split segment including the empty trailing segment — so "exactly one
output event per non-empty line" fails on this document. -/
theorem C2_counterexample :
    ((testResultXMLToGoTestOutput String.length c2doc).filter
        (fun e => e.Action == "output")).length = 2 ∧
    ((jsSplitNl "a\n").filter (fun l => l ≠ "")).length = 1 ∧
    ¬ ((testResultXMLToGoTestOutput String.length c2doc).filter
        (fun e => e.Action == "output")).length
      = ((jsSplitNl "a\n").filter (fun l => l ≠ "")).length := by
  decide

/-- Claim C2 (amended): for every test-report document, (1) suites carrying no
test-case data contribute no events; (2) every test case of a suite with data
contributes a contiguous block of one `output` event per segment of the
newline split of its failure/error free text — empty segments included — all
with the suite's package name and the case's test name, immediately followed
by its terminal event whose `Elapsed` is the numeric coercion of the case's
`time` attribute; (3, 4) for failing and errored cases the message lines are
exactly the in-order concatenation of each entry's newline split. -/
theorem C2_amended :
    (∀ (α : Type) (toNum : String → α) (doc : TestResultXML),
        testResultXMLToGoTestOutput toNum doc
          = testResultXMLToGoTestOutput toNum
              ⟨doc.testsuite.filter (fun s => s.testcase.isSome)⟩) ∧
    (∀ (α : Type) (toNum : String → α) (doc : TestResultXML) (suite : TestSuiteXML)
        (cases : List TestCaseXML) (c : TestCaseXML),
        suite ∈ doc.testsuite → suite.testcase = some cases → c ∈ cases →
        ∃ pre post : List (GoTestOutput α),
          testResultXMLToGoTestOutput toNum doc
            = pre
              ++ (caseMessages c).map (fun m =>
                    { Action := "output", Output := some (m ++ "\n"),
                      Package := suite.name, Test := c.name })
              ++ [{ Action := caseAction c, Package := suite.name, Test := c.name,
                    Elapsed := some (toNum c.time) }]
              ++ post) ∧
    (∀ (c : TestCaseXML) (entries : List XMLEntry), c.failure = some entries →
        caseMessages c = entries.flatMap (fun e => jsSplitNl e.text)) ∧
    (∀ (c : TestCaseXML) (entries : List XMLEntry),
        c.failure = none → c.error = some entries →
        caseMessages c = entries.flatMap (fun e => jsSplitNl e.text)) := by
  refine ⟨?_, ?_, ?_, ?_⟩
  · intro α toNum doc
    rw [testResultXML_eq_bind, testResultXML_eq_bind]
    exact flatMap_suiteEvents_filter toNum doc.testsuite
  · intro α toNum doc suite cases c hs hc hm
    rw [testResultXML_eq_bind]
    obtain ⟨s1, s2, hsplit⟩ := List.append_of_mem hs
    obtain ⟨c1, c2, hcsplit⟩ := List.append_of_mem hm
    refine ⟨s1.flatMap (suiteEvents toNum) ++ c1.flatMap (caseEvents toNum suite.name),
        c2.flatMap (caseEvents toNum suite.name) ++ s2.flatMap (suiteEvents toNum), ?_⟩
    rw [hsplit]
    simp only [List.flatMap_append, List.flatMap_cons]
    rw [show suiteEvents toNum suite = cases.flatMap (caseEvents toNum suite.name) by
      simp [suiteEvents, hc]]
    rw [hcsplit]
    simp [List.flatMap_append, List.flatMap_cons, caseEvents, List.append_assoc]
  · intro c entries hfail
    simp [caseMessages, hfail, foldl_appendSeg_eq_flatMap]
  · intro c entries hfail herr
    simp [caseMessages, hfail, herr, foldl_appendSeg_eq_flatMap]

/-- Claim C2, witness: the amended theorem applied to the concrete document
`c2doc`, its only suite and its only test case. -/
theorem C2_witness :
    ∃ pre post : List (GoTestOutput Nat),
      testResultXMLToGoTestOutput String.length c2doc
        = pre
          ++ (caseMessages { name := "t", time := "1", failure := some [⟨"a\n"⟩] }).map
                (fun m => { Action := "output", Output := some (m ++ "\n"),
                            Package := "p", Test := "t" })
          ++ [{ Action := caseAction { name := "t", time := "1", failure := some [⟨"a\n"⟩] },
                Package := "p", Test := "t",
                Elapsed := some (String.length "1") }]
          ++ post :=
  C2_amended.2.1 Nat String.length c2doc
    { name := "p", testcase := some [{ name := "t", time := "1", failure := some [⟨"a\n"⟩] }] }
    [{ name := "t", time := "1", failure := some [⟨"a\n"⟩] }]
    { name := "t", time := "1", failure := some [⟨"a\n"⟩] }
    (by decide) rfl (by decide)

/-! ### Build-event stream parser (`processBuildEvents`)

Each line of the event log is modelled as `Option JSValue`: `none` is a line
on which `JSON.parse` throws, `some v` a line parsing to the JSON value `v`.
JavaScript property access is modelled in `Except Unit`: accessing a property
of `undefined` or `null` is a `TypeError`, which the handler's `try` block
turns into the fail-fast malformed-stream path. -/

/-- A JSON value, as produced by `JSON.parse` on one event-log line. -/
inductive JSValue where
  | null
  | bool (b : Bool)
  | num (q : Rat)
  | str (s : String)
  | arr (elems : List JSValue)
  | obj (fields : List (String × JSValue))
  deriving Repr

/-- JS truthiness of a defined value. -/
def truthy : JSValue → Bool
  | .null => false
  | .bool b => b
  | .num q => q ≠ 0
  | .str s => s ≠ ""
  | .arr _ => true
  | .obj _ => true

/-- JS truthiness, with `none` standing for `undefined`. -/
def truthyO : Option JSValue → Bool
  | none => false
  | some v => truthy v

/-- Object field lookup; `JSON.parse` keeps the last of duplicate keys, and a
non-object receiver has none of the accessed fields. -/
def fieldOf : JSValue → String → Option JSValue
  | .obj fields, k => fields.reverse.lookup k
  | _, _ => none

/-- Field lookup through an `Option` receiver without throwing (`undefined`
propagates to `undefined`); used for the pure characterisations below. -/
def propOr (v : Option JSValue) (k : String) : Option JSValue :=
  match v with
  | some w => fieldOf w k
  | none => none

/-- JS property access `recv.k`: a `TypeError` when the receiver is
`undefined` or `null`, otherwise the field value (possibly `undefined`). -/
def getProp : Option JSValue → String → Except Unit (Option JSValue)
  | none, _ => .error ()
  | some .null, _ => .error ()
  | some v, k => .ok (fieldOf v k)

/-- JS `for (const x of v)`: arrays iterate their elements, strings their
characters; `undefined`, `null` and other non-iterables throw. -/
def asIterable : Option JSValue → Except Unit (List JSValue)
  | some (.arr xs) => .ok xs
  | some (.str s) => .ok (s.data.map (fun c => .str ⟨[c]⟩))
  | _ => .error ()

/-- Receiver of the `.replace` call: only a string has the method; on any
other value the access yields `undefined` (or throws), so the call throws. -/
def asString : Option JSValue → Except Unit String
  | some (.str s) => .ok s
  | _ => .error ()

/-- `uri.replace(/^(file:\/\/)/, '')`: strips one leading `file://`. -/
def stripFileScheme (u : String) : String :=
  match stripLead "file://".data u.data with
  | some rest => ⟨rest⟩
  | none => u

/-- The `BuildEventOutputs` record under construction.  `exitCode` holds the
stored JS value (`ExitCode.FailedToParse = -1` initially); the optional
fields hold whatever JS value the assignment stored, `none` while unset. -/
structure BuildEventOutputs where
  testXMLPaths : List String
  errorMessages : List String
  exitCode : JSValue
  workspaceDirectory : Option JSValue
  localExecRoot : Option JSValue := none
  genDir : Option JSValue := none
  deriving Repr

/-- The freshly initialised outputs record of `processBuildEvents`. -/
def initialOutputs : BuildEventOutputs :=
  { testXMLPaths := [], errorMessages := [], exitCode := .num (-1),
    workspaceDirectory := some (.str "") }

/-- `parsed.finished.exitCode.code || 0`, once the accesses have succeeded:
the stored value, or `0` when the `code` value is falsy or absent. -/
def jsOrZero (code : Option JSValue) : JSValue :=
  match code with
  | some v => if truthy v then v else .num 0
  | none => .num 0

/-- Line 553 of the handler:
`parsed.id.buildFinished && (outputs.exitCode = parsed.finished.exitCode.code || 0)`
(the `&&` short-circuits, so the `finished` accesses run only when
`id.buildFinished` is truthy). -/
def applyBuildFinished (o : BuildEventOutputs) (parsed : JSValue) (idv : Option JSValue) :
    Except Unit BuildEventOutputs := do
  let bf ← getProp idv "buildFinished"
  if truthyO bf then do
    let fin ← getProp (some parsed) "finished"
    let ec ← getProp fin "exitCode"
    let code ← getProp ec "code"
    Except.ok { o with exitCode := jsOrZero code }
  else Except.ok o

/-- The argument `parsed.progress?.stderr` of the collector call: optional
chaining yields `undefined` when `progress` is absent or null.  A present
`stderr` is a string in build-event streams; a non-string value is treated as
absent. -/
def progressStderrArg (parsed : JSValue) : Option String :=
  match fieldOf parsed "progress" with
  | none => none
  | some .null => none
  | some pv =>
    match fieldOf pv "stderr" with
    | some (.str s) => some s
    | _ => none

/-- One step of the `testActionOutput` loop: when the output's `name` is
strictly equal to `'test.xml'`, push its `uri` with the `file://` scheme
stripped (`.replace` throws unless `uri` is a string). -/
def collectXMLPath (acc : List String) (t : JSValue) : Except Unit (List String) := do
  let nm ← getProp (some t) "name"
  match nm with
  | some (.str s) =>
    if s = "test.xml" then do
      let uri ← getProp (some t) "uri"
      let u ← asString uri
      Except.ok (acc ++ [stripFileScheme u])
    else Except.ok acc
  | _ => Except.ok acc

/-- The `if (parsed.id.workspace) ... else if ... ` chain of the handler
(lines 558-571): workspace-info, run-started, test-result and configuration
records, in that order. -/
def applyIdChain (o : BuildEventOutputs) (parsed : JSValue) (idv : Option JSValue) :
    Except Unit BuildEventOutputs := do
  let w ← getProp idv "workspace"
  if truthyO w then do
    let wsInfo ← getProp (some parsed) "workspaceInfo"
    let lex ← getProp wsInfo "localExecRoot"
    Except.ok { o with localExecRoot := lex }
  else do
    let st ← getProp idv "started"
    if truthyO st then do
      let sp ← getProp (some parsed) "started"
      let wd ← getProp sp "workspaceDirectory"
      Except.ok { o with workspaceDirectory := wd }
    else do
      let tr ← getProp idv "testResult"
      if truthyO tr then do
        let trp ← getProp (some parsed) "testResult"
        let tao ← getProp trp "testActionOutput"
        let items ← asIterable tao
        let paths ← items.foldlM collectXMLPath o.testXMLPaths
        Except.ok { o with testXMLPaths := paths }
      else do
        let cfg ← getProp idv "configuration"
        if truthyO cfg then do
          let cp ← getProp (some parsed) "configuration"
          let mv ← getProp cp "makeVariable"
          let gd ← getProp mv "GENDIR"
          Except.ok { o with genDir := gd }
        else Except.ok o

/-- The body of the `try` block of the per-line handler: parse, record a
build-finished exit code, feed `progress?.stderr` to the collector, then run
the id-dispatch chain.  An `error` result is the thrown exception caught by
the surrounding `catch`. -/
def evalLine (o : BuildEventOutputs) (c : CollectorState) (l : Option JSValue) :
    Except Unit (BuildEventOutputs × CollectorState) := do
  let parsed ← match l with
    | some v => Except.ok v
    | none => Except.error ()
  let idv ← getProp (some parsed) "id"
  let o ← applyBuildFinished o parsed idv
  let c := updateErrorMessages c (progressStderrArg parsed)
  let o := { o with errorMessages := c.output }
  let o ← applyIdChain o parsed idv
  Except.ok (o, c)

/-- The diagnostic line of the `catch` branch. -/
def malformedMsg (file : String) : String :=
  "ERROR: Unable to finish parsing build events due to malformed JSON in "
    ++ file ++ ". Test results in the UI may be incomplete."

/-- State threaded through the line events: the outputs record, the
collector closure and the lines appended to the output channel. -/
structure BEState where
  outputs : BuildEventOutputs
  collector : CollectorState
  channel : List String
  deriving Repr

/-- The line-event loop: on a thrown line the `catch` branch logs the
malformed-stream diagnostic and closes the reader, so no further line is
processed; otherwise processing continues with the updated state. -/
def runBuildEventLines (file : String) (s : BEState) : List (Option JSValue) → BEState
  | [] => s
  | l :: rest =>
    match evalLine s.outputs s.collector l with
    | .ok (o, c) => runBuildEventLines file { s with outputs := o, collector := c } rest
    | .error _ => { s with channel := s.channel ++ [malformedMsg file] }

/-- Fresh state at stream start. -/
def buildEventsInit : BEState :=
  { outputs := initialOutputs, collector := collectorInit, channel := [] }

/-- `processBuildEvents` on the line stream of the event-log file: the
resolved `BuildEventOutputs` is `.outputs`, the diagnostics appended to the
output channel are `.channel`.  (Opening, deleting the temporary file and the
enclosing promise are I/O plumbing outside the embedded core.) -/
def processBuildEvents (file : String) (lines : List (Option JSValue)) : BEState :=
  runBuildEventLines file buildEventsInit lines

/-- Whether every line of the list processes without a thrown error, starting
from state `s`. -/
def runsClean (s : BEState) : List (Option JSValue) → Bool
  | [] => true
  | l :: rest =>
    match evalLine s.outputs s.collector l with
    | .ok (o, c) => runsClean { s with outputs := o, collector := c } rest
    | .error _ => false

theorem exceptBind_ok {α β : Type} (x : Except Unit α) (f : α → Except Unit β) (b : β)
    (h : x >>= f = .ok b) : ∃ a, x = .ok a ∧ f a = .ok b := by
  cases x with
  | error e => simp [Bind.bind, Except.bind] at h
  | ok a => exact ⟨a, rfl, by simpa [Bind.bind, Except.bind] using h⟩

theorem getProp_ok_inv {v : Option JSValue} {k : String} {w : Option JSValue}
    (h : getProp v k = .ok w) : w = propOr v k := by
  cases v with
  | none => simp [getProp] at h
  | some iv => cases iv <;> simp_all [getProp, propOr, fieldOf]

/-- The paths pushed for one element of `testActionOutput`: the stripped
`uri` when `name` is the string `test.xml` and `uri` is a string. -/
def testXMLOf (t : JSValue) : List String :=
  match fieldOf t "name" with
  | some (.str s) =>
    if s = "test.xml" then
      match fieldOf t "uri" with
      | some (.str u) => [stripFileScheme u]
      | _ => []
    else []
  | _ => []

/-- The paths a successfully processed test-result line appends: empty unless
the id-dispatch chain reaches the test-result branch with an array payload. -/
def xmlChainPaths (parsed : JSValue) (idv : Option JSValue) : List String :=
  if truthyO (propOr idv "workspace") then []
  else if truthyO (propOr idv "started") then []
  else if truthyO (propOr idv "testResult") then
    match propOr (propOr (some parsed) "testResult") "testActionOutput" with
    | some (.arr items) => items.flatMap testXMLOf
    | _ => []
  else []

/-- The report paths a successfully processed line appends to
`testXMLPaths`. -/
def xmlPathsOfLine : Option JSValue → List String
  | none => []
  | some parsed => xmlChainPaths parsed (fieldOf parsed "id")

theorem collectXMLPath_ok (t : JSValue) (acc res : List String)
    (h : collectXMLPath acc t = .ok res) : res = acc ++ testXMLOf t := by
  unfold collectXMLPath at h
  obtain ⟨nm, hnm, h⟩ := exceptBind_ok _ _ _ h
  rw [getProp_ok_inv hnm] at h
  unfold testXMLOf
  have hf : propOr (some t) "name" = fieldOf t "name" := rfl
  rw [hf] at h
  cases hname : fieldOf t "name" with
  | none => rw [hname] at h; simp_all
  | some nv =>
    rw [hname] at h
    cases nv with
    | str s =>
      by_cases hs : s = "test.xml"
      · subst hs
        simp only [if_pos rfl] at h ⊢
        obtain ⟨uri, huri, h⟩ := exceptBind_ok _ _ _ h
        rw [getProp_ok_inv huri] at h
        have hg : propOr (some t) "uri" = fieldOf t "uri" := rfl
        rw [hg] at h
        obtain ⟨u, hu, h⟩ := exceptBind_ok _ _ _ h
        cases hur : fieldOf t "uri" with
        | none => rw [hur] at hu; simp [asString] at hu
        | some uv =>
          rw [hur] at hu
          cases uv <;> simp_all [asString]
      · simp_all
    | null => simp_all
    | bool b => simp_all
    | num q => simp_all
    | arr xs => simp_all
    | obj gs => simp_all

theorem foldlM_collect (items : List JSValue) :
    ∀ (acc res : List String), items.foldlM collectXMLPath acc = .ok res →
      res = acc ++ items.flatMap testXMLOf := by
  induction items with
  | nil =>
    intro acc res h
    simp only [List.foldlM, pure, Except.pure, Except.ok.injEq] at h
    simp [← h]
  | cons t rest ih =>
    intro acc res h
    rw [List.foldlM_cons] at h
    obtain ⟨acc1, hstep, h⟩ := exceptBind_ok _ _ _ h
    have h1 := collectXMLPath_ok t acc acc1 hstep
    have h2 := ih acc1 res h
    simp [h2, h1, List.flatMap_cons]

theorem charStrings_no_xml (l : List Char) :
    (l.map (fun c => JSValue.str ⟨[c]⟩)).flatMap testXMLOf = [] := by
  induction l with
  | nil => rfl
  | cons c rest ih => simp [List.flatMap_cons, testXMLOf, fieldOf, ih]

theorem applyBuildFinished_ok (o : BuildEventOutputs) (parsed : JSValue) (idv : Option JSValue)
    (o' : BuildEventOutputs) (h : applyBuildFinished o parsed idv = .ok o') :
    o'.testXMLPaths = o.testXMLPaths := by
  have hfneg : ¬ (false = true) := by simp
  unfold applyBuildFinished at h
  obtain ⟨bf, hbf, h⟩ := exceptBind_ok _ _ _ h
  cases htr : truthyO bf with
  | false =>
    rw [htr, if_neg hfneg] at h
    simp only [Except.ok.injEq] at h
    simp [← h]
  | true =>
    rw [htr, if_pos rfl] at h
    obtain ⟨fin, hfin, h⟩ := exceptBind_ok _ _ _ h
    obtain ⟨ec, hec, h⟩ := exceptBind_ok _ _ _ h
    obtain ⟨code, hcode, h⟩ := exceptBind_ok _ _ _ h
    simp only [Except.ok.injEq] at h
    simp [← h]

theorem applyIdChain_ok (o : BuildEventOutputs) (parsed : JSValue) (idv : Option JSValue)
    (o' : BuildEventOutputs) (h : applyIdChain o parsed idv = .ok o') :
    o'.testXMLPaths = o.testXMLPaths ++ xmlChainPaths parsed idv := by
  have hfneg : ¬ (false = true) := by simp
  unfold applyIdChain at h
  unfold xmlChainPaths
  obtain ⟨w, hw, h⟩ := exceptBind_ok _ _ _ h
  rw [getProp_ok_inv hw] at h
  cases hwt : truthyO (propOr idv "workspace") with
  | true =>
    rw [hwt, if_pos rfl] at h
    rw [if_pos rfl]
    obtain ⟨wsInfo, hws, h⟩ := exceptBind_ok _ _ _ h
    obtain ⟨lex, hlex, h⟩ := exceptBind_ok _ _ _ h
    simp only [Except.ok.injEq] at h
    simp [← h]
  | false =>
    rw [hwt, if_neg hfneg] at h
    rw [if_neg hfneg]
    obtain ⟨st, hst, h⟩ := exceptBind_ok _ _ _ h
    rw [getProp_ok_inv hst] at h
    cases hstt : truthyO (propOr idv "started") with
    | true =>
      rw [hstt, if_pos rfl] at h
      rw [if_pos rfl]
      obtain ⟨sp, hsp, h⟩ := exceptBind_ok _ _ _ h
      obtain ⟨wd, hwd, h⟩ := exceptBind_ok _ _ _ h
      simp only [Except.ok.injEq] at h
      simp [← h]
    | false =>
      rw [hstt, if_neg hfneg] at h
      rw [if_neg hfneg]
      obtain ⟨tr, htr, h⟩ := exceptBind_ok _ _ _ h
      rw [getProp_ok_inv htr] at h
      cases htrt : truthyO (propOr idv "testResult") with
      | true =>
        rw [htrt, if_pos rfl] at h
        rw [if_pos rfl]
        obtain ⟨trp, htrp, h⟩ := exceptBind_ok _ _ _ h
        obtain ⟨tao, htao, h⟩ := exceptBind_ok _ _ _ h
        obtain ⟨items, hitems, h⟩ := exceptBind_ok _ _ _ h
        obtain ⟨paths, hpaths, hfin⟩ := exceptBind_ok _ _ _ h
        simp only [Except.ok.injEq] at hfin
        rw [getProp_ok_inv htrp] at htao
        rw [getProp_ok_inv htao] at hitems
        have hpaths2 := foldlM_collect items o.testXMLPaths paths hpaths
        cases htaoV : propOr (propOr (some parsed) "testResult") "testActionOutput" with
        | none => rw [htaoV] at hitems; simp [asIterable] at hitems
        | some tv =>
          rw [htaoV] at hitems
          cases tv with
          | arr xs =>
            simp only [asIterable, Except.ok.injEq] at hitems
            subst hitems
            simp [← hfin, hpaths2]
          | str s =>
            simp only [asIterable, Except.ok.injEq] at hitems
            subst hitems
            simp [← hfin, hpaths2, charStrings_no_xml]
          | null => simp [asIterable] at hitems
          | bool b => simp [asIterable] at hitems
          | num q => simp [asIterable] at hitems
          | obj gs => simp [asIterable] at hitems
      | false =>
        rw [htrt, if_neg hfneg] at h
        rw [if_neg hfneg]
        obtain ⟨cfg, hcfg, h⟩ := exceptBind_ok _ _ _ h
        cases hct : truthyO cfg with
        | true =>
          rw [hct, if_pos rfl] at h
          obtain ⟨cp, hcp, h⟩ := exceptBind_ok _ _ _ h
          obtain ⟨mv, hmv, h⟩ := exceptBind_ok _ _ _ h
          obtain ⟨gd, hgd, h⟩ := exceptBind_ok _ _ _ h
          simp only [Except.ok.injEq] at h
          simp [← h]
        | false =>
          rw [hct, if_neg hfneg] at h
          simp only [Except.ok.injEq] at h
          simp [← h]

theorem evalLine_ok_paths (o : BuildEventOutputs) (c : CollectorState) (l : Option JSValue)
    (o' : BuildEventOutputs) (c' : CollectorState)
    (h : evalLine o c l = .ok (o', c')) :
    o'.testXMLPaths = o.testXMLPaths ++ xmlPathsOfLine l := by
  unfold evalLine at h
  cases l with
  | none => simp [Bind.bind, Except.bind] at h
  | some parsed =>
    obtain ⟨p0, hp0, h⟩ := exceptBind_ok _ _ _ h
    simp only [Except.ok.injEq] at hp0
    subst hp0
    obtain ⟨idv, hidv, h⟩ := exceptBind_ok _ _ _ h
    obtain ⟨o1, h1, h⟩ := exceptBind_ok _ _ _ h
    obtain ⟨o2, h2, h⟩ := exceptBind_ok _ _ _ h
    simp only [Except.ok.injEq, Prod.mk.injEq] at h
    have hb := applyBuildFinished_ok o parsed idv o1 h1
    have hc2 := applyIdChain_ok _ parsed idv o2 h2
    have hidvf : idv = fieldOf parsed "id" := getProp_ok_inv hidv
    rw [← h.1, xmlPathsOfLine, ← hidvf]
    simpa [hb] using hc2

theorem evalLine_none (o : BuildEventOutputs) (c : CollectorState) :
    evalLine o c none = .error () := rfl

theorem runBuildEventLines_append (file : String) :
    ∀ (pre : List (Option JSValue)) (s : BEState), runsClean s pre = true →
      ∀ rest, runBuildEventLines file s (pre ++ rest)
        = runBuildEventLines file (runBuildEventLines file s pre) rest := by
  intro pre
  induction pre with
  | nil => intro s _ rest; rfl
  | cons l pre ih =>
    intro s h rest
    simp only [runsClean] at h
    simp only [List.cons_append, runBuildEventLines]
    cases hev : evalLine s.outputs s.collector l with
    | ok oc =>
      obtain ⟨o, c⟩ := oc
      rw [hev] at h
      exact ih _ h rest
    | error e => rw [hev] at h; simp at h

theorem runBuildEventLines_clean_channel (file : String) :
    ∀ (lines : List (Option JSValue)) (s : BEState), runsClean s lines = true →
      (runBuildEventLines file s lines).channel = s.channel := by
  intro lines
  induction lines with
  | nil => intro s _; rfl
  | cons l rest ih =>
    intro s h
    simp only [runsClean] at h
    simp only [runBuildEventLines]
    cases hev : evalLine s.outputs s.collector l with
    | ok oc =>
      obtain ⟨o, c⟩ := oc
      rw [hev] at h
      exact ih _ h
    | error e => rw [hev] at h; simp at h

theorem runsClean_paths (file : String) :
    ∀ (lines : List (Option JSValue)) (s : BEState), runsClean s lines = true →
      (runBuildEventLines file s lines).outputs.testXMLPaths
        = s.outputs.testXMLPaths ++ lines.flatMap xmlPathsOfLine := by
  intro lines
  induction lines with
  | nil => intro s _; simp [runBuildEventLines]
  | cons l rest ih =>
    intro s h
    simp only [runsClean] at h
    simp only [runBuildEventLines]
    cases hev : evalLine s.outputs s.collector l with
    | ok oc =>
      obtain ⟨o, c⟩ := oc
      rw [hev] at h
      have hstep := evalLine_ok_paths s.outputs s.collector l o c hev
      show (runBuildEventLines file ⟨o, c, s.channel⟩ rest).outputs.testXMLPaths = _
      rw [ih _ h]
      simp [hstep, List.flatMap_cons, List.append_assoc]
    | error e => rw [hev] at h; simp at h

/-! ### Claim C3 -/

/-- Claim C3: for any event stream whose lines up to the first unparseable
line all process without error, the parser logs exactly one malformed-stream
diagnostic, processes none of the lines after the corrupt one (the result does
not depend on `post`), and resolves with the outcome and collector state
accumulated from the preceding lines — a return of partial results rather
than a thrown error. -/
theorem C3_malformed_line (file : String) (pre post : List (Option JSValue))
    (h : runsClean buildEventsInit pre = true) :
    processBuildEvents file (pre ++ none :: post)
      = { outputs := (processBuildEvents file pre).outputs,
          collector := (processBuildEvents file pre).collector,
          channel := [malformedMsg file] } := by
  unfold processBuildEvents
  rw [runBuildEventLines_append file pre buildEventsInit h (none :: post)]
  have hch := runBuildEventLines_clean_channel file pre buildEventsInit h
  simp only [runBuildEventLines, evalLine_none]
  rw [hch]
  rfl

/-- A valid run-started line for the claim C3 scenario. -/
def c3line : Option JSValue :=
  some (.obj [("id", .obj [("started", .bool true)]),
              ("started", .obj [("workspaceDirectory", .str "/workspace")])])

/-- Claim C3, witness: one valid JSON line followed by one unparseable line
yields the first line's outcome plus exactly one diagnostic. -/
theorem C3_witness :
    runsClean buildEventsInit [c3line] = true ∧
    processBuildEvents "events" ([c3line] ++ none :: [])
      = { outputs := (processBuildEvents "events" [c3line]).outputs,
          collector := (processBuildEvents "events" [c3line]).collector,
          channel := [malformedMsg "events"] } :=
  ⟨by decide, C3_malformed_line "events" [c3line] [] (by decide)⟩

/-! ### Claim C10 -/

/-- Claim C10: a line that parses to a JSON value on which the handler body
throws — a bare number, a bare string, `null`, or an object whose id-selected
nested payload is missing — is handled exactly like a malformed-JSON line:
the whole run produces the identical result (same single diagnostic, same
partial outcome, no lines processed after it). -/
theorem C10_nonobject_lines :
    (∀ (file : String) (pre post : List (Option JSValue)) (v : JSValue),
        (∀ (o : BuildEventOutputs) (c : CollectorState), evalLine o c (some v) = .error ()) →
        processBuildEvents file (pre ++ some v :: post)
          = processBuildEvents file (pre ++ none :: post)) ∧
    (∀ (o : BuildEventOutputs) (c : CollectorState),
        evalLine o c (some (.num 7)) = .error ()) ∧
    (∀ (o : BuildEventOutputs) (c : CollectorState),
        evalLine o c (some (.str "oops")) = .error ()) ∧
    (∀ (o : BuildEventOutputs) (c : CollectorState),
        evalLine o c (some .null) = .error ()) ∧
    (∀ (o : BuildEventOutputs) (c : CollectorState),
        evalLine o c (some (.obj [("id", .obj [("started", .bool true)])])) = .error ()) := by
  refine ⟨?_, fun o c => rfl, fun o c => rfl, fun o c => rfl, fun o c => rfl⟩
  intro file pre post v hv
  unfold processBuildEvents
  have main : ∀ (pre : List (Option JSValue)) (s : BEState),
      runBuildEventLines file s (pre ++ some v :: post)
        = runBuildEventLines file s (pre ++ none :: post) := by
    intro pre
    induction pre with
    | nil =>
      intro s
      simp only [List.nil_append, runBuildEventLines, hv, evalLine_none]
    | cons l pre ih =>
      intro s
      simp only [List.cons_append, runBuildEventLines]
      cases hev : evalLine s.outputs s.collector l with
      | ok oc =>
        obtain ⟨o, c⟩ := oc
        exact ih _
      | error e => rfl
  exact main pre buildEventsInit

/-- Claim C10, witness: a bare-`null` line stream is processed identically to
an unparseable-line stream. -/
theorem C10_witness :
    processBuildEvents "events" ([] ++ some JSValue.null :: [])
      = processBuildEvents "events" ([] ++ none :: []) :=
  C10_nonobject_lines.1 "events" [] [] .null (fun o c => rfl)

/-! ### Claim C5 -/

/-- Whether a line is a build-finished record whose stored code is `0`
(`code || 0` stores `0` when `code` is absent or falsy). -/
def buildFinishedCodeZero (l : Option JSValue) : Bool :=
  match l with
  | none => false
  | some v =>
    truthyO (propOr (fieldOf v "id") "buildFinished") &&
      (match propOr (fieldOf v "finished") "exitCode" with
       | some ev =>
         (match fieldOf ev "code" with
          | none => true
          | some cv => !(truthy cv))
       | none => false)

/-- Claim C5: for a stream that processes without error, ends in a
build-finished record with code 0, and contains at least one test-result
record naming a `test.xml` output, the produced `testXMLPaths` is exactly the
concatenation, in encounter order, of the `test.xml`-named output paths with
any leading `file://` prefix stripped (so in particular its length is the
number of such named outputs). -/
theorem C5_report_paths (file : String) (lines : List (Option JSValue))
    (hclean : runsClean buildEventsInit lines = true)
    (hend : ∃ pre bf, lines = pre ++ [bf] ∧ buildFinishedCodeZero bf = true)
    (hsome : lines.flatMap xmlPathsOfLine ≠ []) :
    (processBuildEvents file lines).outputs.testXMLPaths
      = lines.flatMap xmlPathsOfLine := by
  unfold processBuildEvents
  rw [runsClean_paths file lines buildEventsInit hclean]
  rfl

/-- A test-result line with one `test.xml` output and one other output. -/
def c5line1 : Option JSValue :=
  some (.obj [("id", .obj [("testResult", .obj [])]),
    ("testResult", .obj [("testActionOutput", .arr
      [.obj [("name", .str "test.xml"), ("uri", .str "file:///tmp/t/test.xml")],
       .obj [("name", .str "test.log"), ("uri", .str "file:///tmp/t/test.log")]])])])

/-- A build-finished line with exit code 0. -/
def c5line2 : Option JSValue :=
  some (.obj [("id", .obj [("buildFinished", .bool true)]),
    ("finished", .obj [("exitCode", .obj [("code", .num 0)])])])

/-- Claim C5, witness: a clean stream with one test-result line and a final
build-finished(0) line yields exactly the one stripped report path. -/
theorem C5_witness :
    (processBuildEvents "events" [c5line1, c5line2]).outputs.testXMLPaths
      = [c5line1, c5line2].flatMap xmlPathsOfLine ∧
    [c5line1, c5line2].flatMap xmlPathsOfLine = ["/tmp/t/test.xml"] :=
  ⟨C5_report_paths "events" [c5line1, c5line2] (by decide)
      ⟨[c5line1], c5line2, rfl, by decide⟩ (by decide),
   by decide⟩

/-! ### Bazel argument construction (`getBazelArgs`) -/

/-- Membership in the class `TEST_NAME_SPECIAL_CHARACTERS` of regex
metacharacters escaped in test names (dot, star, plus, question mark, caret,
dollar, curly braces, parentheses, pipe, square brackets, backslash). -/
def isTestNameSpecialChar (c : Char) : Bool :=
  c = '.' || c = '*' || c = '+' || c = '?' || c = '^' || c = '$' ||
    c = '\x7b' || c = '\x7d' || c = '(' || c = ')' || c = '|' ||
    c = '[' || c = ']' || c = '\\'

/-- `curr.replace(TEST_NAME_SPECIAL_CHARACTERS, '\\$&')`: the `g` flag makes
this a per-character global replacement, prefixing every metacharacter with a
backslash. -/
def jsEscapeSpecial (s : String) : String :=
  ⟨s.data.flatMap (fun c => if isTestNameSpecialChar c then ['\\', c] else [c])⟩

/-- Replaces the first `'/'` with `"$/^"`; later slashes are untouched. -/
def replFirstSlash : List Char → List Char
  | [] => []
  | c :: rest => if c = '/' then '$' :: '/' :: '^' :: rest else c :: replFirstSlash rest

/-- `.replace('/', '$/^')`: a string (non-regex) pattern, so JS replaces only
the first occurrence. -/
def jsReplaceFirstSlash (s : String) : String :=
  ⟨replFirstSlash s.data⟩

/-- `Array.prototype.join('|')`. -/
def joinBar : List String → String
  | [] => ""
  | [x] => x
  | x :: y :: rest => x ++ "|" ++ joinBar (y :: rest)

/-- The pushed `--test_filter` flag: the single-element form when
`filterFunctions.length === 1`, else the parenthesised alternation. -/
def filterFlagOf : List String → String
  | [f] => "--test_filter='^" ++ f ++ "$'"
  | fs => "--test_filter='^(" ++ joinBar fs ++ ")$'"

/-- The fields of `TestConfig` that `getBazelArgs` reads.  `envVarArgs`
stands for the result of `getBazelTestEnvVars(testconfig.goConfig)`, whose
input is the editor configuration outside the embedded core. -/
structure TestConfig where
  functions : Option (List String) := none
  flags : List String := []
  isBenchmark : Bool := false
  applyCodeCoverage : Bool := false
  envVarArgs : List String := []

/-- The field of the debug configuration that `getBazelArgs` reads. -/
structure DebugConfiguration where
  port : Nat

/-- The `BazelCommands` enum (`Benchmark = 'run'`). -/
inductive BazelCommands where
  | test
  | debug
  | coverage
  | benchmark
  deriving Repr, DecidableEq

/-- The string value of each `BazelCommands` member. -/
def BazelCommands.toArg : BazelCommands → String
  | .test => "test"
  | .debug => "debug"
  | .coverage => "coverage"
  | .benchmark => "run"

/-- The flag block shared by the Test, Benchmark and (fall-through) Coverage
cases of the switch. -/
def testFlagsBlock (buildEventsFile : String) : List String :=
  ["--build_tests_only", "--test_env=GO_TEST_WRAP_TESTV=1",
   "--build_event_json_file=" ++ buildEventsFile,
   "--build_event_json_file_path_conversion=no"]

/-- `getBazelArgs`: chooses the command verb, pushes the mode-specific flags
(coverage falls through into the test flags), the tool tag, the test filter
for a single-target run with a `functions` list, the user flags, the
environment-variable flags, the targets, and the benchmark passthrough
marker. -/
def getBazelArgs (testconfig : TestConfig) (bazelTargets : List String)
    (buildEventsFile : String) (debugConfig : Option DebugConfiguration) : List String :=
  let bazelCmd : BazelCommands :=
    if debugConfig.isSome then .debug
    else if testconfig.applyCodeCoverage then .coverage
    else if testconfig.isBenchmark then .benchmark
    else .test
  let switchArgs : List String :=
    match bazelCmd with
    | .debug =>
      match debugConfig with
      | some dc => ["--port=" ++ toString dc.port]
      | none => []
    | .coverage =>
      ["--combined_report=lcov", "--@io_bazel_rules_go//go/config:cover_format=lcov"]
        ++ testFlagsBlock buildEventsFile
    | .benchmark => testFlagsBlock buildEventsFile
    | .test => testFlagsBlock buildEventsFile
  let filterArgs : List String :=
    if bazelTargets.length = 1 then
      match testconfig.functions with
      | some fns =>
        [filterFlagOf (fns.map (fun curr => jsReplaceFirstSlash (jsEscapeSpecial curr)))]
      | none => []
    else []
  let args :=
    [bazelCmd.toArg] ++ switchArgs ++ ["--tool_tag=vscode-go-bazel"] ++ filterArgs
      ++ testconfig.flags ++ testconfig.envVarArgs ++ bazelTargets
  if testconfig.isBenchmark then args ++ ["-- -test.bench=."] else args

/-! ### Claim C7 -/

/-- Claim C7, counterexample: for the two-slash subtest path `"A/B/C"` the
constructed filter anchors only the first separator — the produced flag is
`--test_filter='^A$/^B/C$'`, and the fully segment-anchored value
`'^A$/^B$/^C$'` demanded by the claim appears nowhere in the arguments. -/
theorem C7_counterexample :
    "--test_filter='^A$/^B/C$'"
        ∈ getBazelArgs { functions := some ["A/B/C"], flags := [] } ["path/to:all"] "ev" none ∧
    ¬ "--test_filter='^A$/^B$/^C$'"
        ∈ getBazelArgs { functions := some ["A/B/C"], flags := [] } ["path/to:all"] "ev" none := by
  decide

/-- Claim C7 (amended): for a single-target run with a function list, the
argument vector contains the test-filter flag built from the requested names
by backslash-escaping regex metacharacters and then anchoring only the first
slash separator (`name1$/^name2`, later separators left as-is), the whole
value anchored as `'^...$'` for one name and `'^(...|...)$'` for several. -/
theorem C7_amended :
    (∀ (tc : TestConfig) (target file : String) (fns : List String),
        tc.functions = some fns → fns ≠ [] →
        filterFlagOf (fns.map (fun curr => jsReplaceFirstSlash (jsEscapeSpecial curr)))
          ∈ getBazelArgs tc [target] file none) ∧
    (∀ f : String, filterFlagOf [f] = "--test_filter='^" ++ f ++ "$'") ∧
    (∀ (f g : String) (rest : List String),
        filterFlagOf (f :: g :: rest)
          = "--test_filter='^(" ++ joinBar (f :: g :: rest) ++ ")$'") ∧
    (∀ a b : String, ¬ '/' ∈ a.data →
        jsReplaceFirstSlash (a ++ "/" ++ b) = a ++ "$/^" ++ b) := by
  refine ⟨?_, fun f => rfl, fun f g rest => rfl, ?_⟩
  · intro tc target file fns hf hne
    simp only [getBazelArgs, hf]
    split <;> simp
  · intro a b ha
    have hrepl : ∀ (l : List Char), ¬ '/' ∈ l →
        replFirstSlash (l ++ '/' :: b.data) = l ++ '$' :: '/' :: '^' :: b.data := by
      intro l
      induction l with
      | nil => intro _; simp [replFirstSlash]
      | cons c rest ih =>
        intro hmem
        simp only [List.mem_cons, not_or] at hmem
        have hc : c ≠ '/' := fun hcc => hmem.1 hcc.symm
        simp [replFirstSlash, hc, ih hmem.2]
    have hdata : (a ++ "/" ++ b).data = a.data ++ '/' :: b.data := by
      simp [String.data_append]
    have hdata2 : (a ++ "$/^" ++ b).data = a.data ++ '$' :: '/' :: '^' :: b.data := by
      simp [String.data_append]
    apply String.ext
    show (jsReplaceFirstSlash (a ++ "/" ++ b)).data = _
    rw [jsReplaceFirstSlash, hdata2, hdata]
    exact hrepl a.data ha

/-- Claim C7, witness: the amended theorem applied to one function with one
subtest segment and a metacharacter. -/
theorem C7_witness :
    filterFlagOf (["func1/sub.case"].map (fun curr => jsReplaceFirstSlash (jsEscapeSpecial curr)))
      ∈ getBazelArgs { functions := some ["func1/sub.case"], flags := ["--user_flag=TRUE"] }
          ["path/to:go_default_test"] "/tmp/events" none :=
  C7_amended.1 { functions := some ["func1/sub.case"], flags := ["--user_flag=TRUE"] }
    "path/to:go_default_test" "/tmp/events" ["func1/sub.case"] rfl (by decide)

/-! ### Coverage aggregation (`bazelCoverage.ts`) -/

/-- One entry of the LCOV `details` list: 1-based line number and execution
count. -/
structure LcovLine where
  line : Int
  hit : Int
  deriving Repr, DecidableEq

/-- The `lines` part of one LCOV file record: `found` (total lines), `hit`
(covered lines) and the per-line details. -/
structure LcovPartLines where
  found : Int
  hit : Int
  details : List LcovLine
  deriving Repr, DecidableEq

/-- A `vscode.Range`, by its four constructor arguments. -/
structure VSRange where
  startLine : Int
  startCol : Int
  endLine : Int
  endCol : Int
  deriving Repr, DecidableEq

/-- A decoration option produced by goCover's `elaborate`. -/
structure DecorationOption where
  range : VSRange
  count : Int
  showCounts : Bool
  deriving Repr, DecidableEq

/-- The `CoverageData` lists from goCover. -/
structure CoverageData where
  coveredOptions : List DecorationOption
  uncoveredOptions : List DecorationOption
  deriving Repr, DecidableEq

/-- Modelled from the spec: `emptyCoverageData()` of the external `goCover`
module (not under src/) — fresh empty covered/uncovered lists. -/
def emptyCoverageData : CoverageData := ⟨[], []⟩

/-- Modelled from the spec: `elaborate(range, hit, showCounts)` of the
external `goCover` module (not under src/) yields the decoration options for
one line range; per the spec's scenario counts (2 covered and 1 uncovered
option for 3 detail lines) it produces exactly one option per call. -/
def elaborate (r : VSRange) (hit : Int) (showCounts : Bool) : List DecorationOption :=
  [⟨r, hit, showCounts⟩]

/-- `lcovLinesToEditorRanges`: one single-line range per detail entry
(zero-based via `line - 1`, columns 0 to 1000), classified covered exactly
when `hit > 0`. -/
def lcovLinesToEditorRanges (lines : LcovPartLines) (showCounts : Bool) : CoverageData :=
  lines.details.foldl
    (fun coverage lineDetails =>
      let range : VSRange := ⟨lineDetails.line - 1, 0, lineDetails.line - 1, 1000⟩
      if lineDetails.hit > 0 then
        { coverage with
            coveredOptions := coverage.coveredOptions ++ elaborate range lineDetails.hit showCounts }
      else
        { coverage with
            uncoveredOptions :=
              coverage.uncoveredOptions ++ elaborate range lineDetails.hit showCounts })
    emptyCoverageData

/-- The one decoration option produced for a detail entry. -/
def mkLineOption (sc : Bool) (d : LcovLine) : DecorationOption :=
  ⟨⟨d.line - 1, 0, d.line - 1, 1000⟩, d.hit, sc⟩

set_option maxRecDepth 4000 in
theorem lcovFold (sc : Bool) :
    ∀ (ds : List LcovLine) (acc : CoverageData),
      ds.foldl
          (fun coverage lineDetails =>
            let range : VSRange := ⟨lineDetails.line - 1, 0, lineDetails.line - 1, 1000⟩
            if lineDetails.hit > 0 then
              { coverage with
                  coveredOptions := coverage.coveredOptions ++ elaborate range lineDetails.hit sc }
            else
              { coverage with
                  uncoveredOptions :=
                    coverage.uncoveredOptions ++ elaborate range lineDetails.hit sc })
          acc
        = ⟨acc.coveredOptions ++ (ds.filter (fun d => decide (d.hit > 0))).map (mkLineOption sc),
           acc.uncoveredOptions
             ++ (ds.filter (fun d => !decide (d.hit > 0))).map (mkLineOption sc)⟩ := by
  intro ds
  induction ds with
  | nil => intro acc; simp
  | cons d rest ih =>
    intro acc
    rw [List.foldl_cons, ih]
    by_cases hd : d.hit > 0
    · simp [hd, List.filter_cons, elaborate, mkLineOption]
    · simp [hd, List.filter_cons, elaborate, mkLineOption]

theorem filter_length_split {α : Type} (p : α → Bool) (l : List α) :
    (l.filter p).length + (l.filter (fun x => !(p x))).length = l.length := by
  induction l with
  | nil => rfl
  | cons x rest ih =>
    by_cases hx : p x <;> simp [List.filter_cons, hx] <;> omega

/-- Characterisation of the converter's two lists. -/
theorem lcovLines_eq (lines : LcovPartLines) (sc : Bool) :
    lcovLinesToEditorRanges lines sc
      = ⟨(lines.details.filter (fun d => decide (d.hit > 0))).map (mkLineOption sc),
         (lines.details.filter (fun d => !decide (d.hit > 0))).map (mkLineOption sc)⟩ := by
  unfold lcovLinesToEditorRanges
  rw [lcovFold sc lines.details emptyCoverageData]
  rfl

/-! ### Claim C8 -/

/-- The coverage input of the claim C8 scenario. -/
def c8input : LcovPartLines := ⟨110, 100, [⟨30, 2⟩, ⟨40, 0⟩, ⟨51, 2⟩]⟩

/-- Claim C8, counterexample: on the scenario input the two covered
single-line ranges sit at zero-based lines 29 and 50 (1-based 51 minus 1),
not at 29 and 51 as the claim states. -/
theorem C8_counterexample :
    ((lcovLinesToEditorRanges c8input false).coveredOptions.map
        (fun o => o.range.startLine)) = [29, 50] ∧
    ¬ ((lcovLinesToEditorRanges c8input false).coveredOptions.map
        (fun o => o.range.startLine)) = [29, 51] := by
  decide

/-- Claim C8 (amended): on the scenario input the converter produces exactly
2 covered single-line ranges at zero-based lines 29 and 50 and 1 uncovered
single-line range at zero-based line 39; in general the covered (resp.
uncovered) options are exactly the detail lines with positive (resp.
non-positive) hit count in order, covered plus uncovered count equals the
number of detail lines, and every range starts and ends on the same line. -/
theorem C8_amended :
    (((lcovLinesToEditorRanges c8input false).coveredOptions.map
        (fun o => o.range.startLine)) = [29, 50] ∧
     ((lcovLinesToEditorRanges c8input false).uncoveredOptions.map
        (fun o => o.range.startLine)) = [39]) ∧
    (∀ (lines : LcovPartLines) (sc : Bool),
        (lcovLinesToEditorRanges lines sc).coveredOptions
            = (lines.details.filter (fun d => decide (d.hit > 0))).map (mkLineOption sc) ∧
        (lcovLinesToEditorRanges lines sc).uncoveredOptions
            = (lines.details.filter (fun d => !decide (d.hit > 0))).map (mkLineOption sc)) ∧
    (∀ (lines : LcovPartLines) (sc : Bool),
        (lcovLinesToEditorRanges lines sc).coveredOptions.length
            + (lcovLinesToEditorRanges lines sc).uncoveredOptions.length
          = lines.details.length) ∧
    (∀ (lines : LcovPartLines) (sc : Bool) (o : DecorationOption),
        o ∈ (lcovLinesToEditorRanges lines sc).coveredOptions
            ++ (lcovLinesToEditorRanges lines sc).uncoveredOptions →
        o.range.startLine = o.range.endLine) := by
  refine ⟨by decide, ?_, ?_, ?_⟩
  · intro lines sc
    rw [lcovLines_eq]
    exact ⟨rfl, rfl⟩
  · intro lines sc
    rw [lcovLines_eq]
    simp [filter_length_split]
  · intro lines sc o ho
    rw [lcovLines_eq] at ho
    simp only [List.mem_append, List.mem_map, List.mem_filter] at ho
    rcases ho with ⟨d, _, hd⟩ | ⟨d, _, hd⟩ <;> rw [← hd] <;> rfl

/-- Claim C8, witness: the general characterisation applied to the concrete
scenario input. -/
theorem C8_witness :
    (lcovLinesToEditorRanges c8input false).coveredOptions
        = (c8input.details.filter (fun d => decide (d.hit > 0))).map (mkLineOption false) ∧
    (lcovLinesToEditorRanges c8input false).uncoveredOptions
        = (c8input.details.filter (fun d => !decide (d.hit > 0))).map (mkLineOption false) :=
  C8_amended.2.1 c8input false

/-! ### Coverage rollup (`GoCoverageHandler.processLcovFiles`)

The Node `path` functions are modelled for the slash-separated paths that
occur in coverage records (no `.`/`..` segment normalisation, no trailing
separators); the rollup invariant proved below holds for every resolution the
helpers could produce. -/

/-- `s.startsWith(p)`. -/
def strStartsWith (s pre : String) : Bool :=
  (stripLead pre.data s.data).isSome

/-- Index of the last `'/'`, scanning left to right. -/
def lastSlashPos : List Char → Nat → Option Nat → Option Nat
  | [], _, acc => acc
  | c :: rest, i, acc => lastSlashPos rest (i + 1) (if c = '/' then some i else acc)

/-- `path.join(a, b)` for the joined-path shapes used here. -/
def pathJoin (a b : String) : String :=
  if a = "" then b
  else if b = "" then a
  else
    match a.data.reverse with
    | '/' :: _ => a ++ b
    | _ => a ++ "/" ++ b

/-- `path.dirname(p)`: the part before the last separator; `"."` when there
is none, `"/"` for a root-level path. -/
def pathDirname (p : String) : String :=
  match lastSlashPos p.data 0 none with
  | none => "."
  | some 0 => "/"
  | some i => ⟨p.data.take i⟩

/-- `path.basename(p)`: the part after the last separator. -/
def pathBasename (p : String) : String :=
  match lastSlashPos p.data 0 none with
  | none => p
  | some i => ⟨p.data.drop (i + 1)⟩

/-- `path.relative(base, p)` for the in-tree case: strips `base + '/'`; a
path equal to `base` gives `""`; out-of-tree paths (which Node would express
with `../` segments) are returned unchanged. -/
def pathRelative (base p : String) : String :=
  match stripLead (base ++ "/").data p.data with
  | some rest => ⟨rest⟩
  | none => if p = base then "" else p

/-- One file record of the parsed LCOV report. -/
structure LcovFile where
  file : String
  lines : LcovPartLines
  deriving Repr, DecidableEq

/-- `CoverageProcessingConfig`; the optional `generatedFileMapper` is
modelled as a function of the generated file path (the source also passes the
config itself to the mapper). -/
structure CoverageProcessingConfig where
  bazelWorkspaceRoot : String
  currentGoWorkspace : String
  targetPackages : List String
  generatedFilePrefix : String
  generatedFileMapper : Option (String → String) := none

/-- `CoverageTreeNode`: package nodes carry `some` children, file nodes
`none`. -/
inductive CoverageTreeNode where
  | mk (displayName : String) (absolutePath : String) (hits : Int) (lines : Int)
      (children : Option (List CoverageTreeNode)) : CoverageTreeNode

/-- The node's display name. -/
def CoverageTreeNode.displayName : CoverageTreeNode → String
  | .mk d _ _ _ _ => d

/-- The node's absolute path. -/
def CoverageTreeNode.absolutePath : CoverageTreeNode → String
  | .mk _ a _ _ _ => a

/-- The node's cumulative hit count. -/
def CoverageTreeNode.hits : CoverageTreeNode → Int
  | .mk _ _ h _ _ => h

/-- The node's cumulative line count. -/
def CoverageTreeNode.lines : CoverageTreeNode → Int
  | .mk _ _ _ l _ => l

/-- The node's children, when it is a package node. -/
def CoverageTreeNode.children : CoverageTreeNode → Option (List CoverageTreeNode)
  | .mk _ _ _ _ c => c

/-- `Map.prototype.get` over an insertion-ordered association list. -/
def lookupEntry {α : Type} : List (String × α) → String → Option α
  | [], _ => none
  | (k', v') :: rest, k => if k' = k then some v' else lookupEntry rest k

/-- `Map.prototype.set`: updates an existing key in place, appends a new
one. -/
def setEntry {α : Type} : List (String × α) → String → α → List (String × α)
  | [], k, v => [(k, v)]
  | (k', v') :: rest, k, v =>
    if k' = k then (k, v) :: rest else (k', v') :: setEntry rest k v

/-- `getSourceFileAbsolutePath`: remap a generated file when a mapper is
configured, otherwise join with the workspace root. -/
def getSourceFileAbsolutePath (config : CoverageProcessingConfig) (coverageFile : String) :
    String :=
  if strStartsWith coverageFile config.generatedFilePrefix then
    match config.generatedFileMapper with
    | some mapper => mapper coverageFile
    | none => pathJoin config.bazelWorkspaceRoot coverageFile
  else pathJoin config.bazelWorkspaceRoot coverageFile

/-- The two maps built by `processLcovFiles`: absolute file path to editor
ranges, and package to rollup tree node. -/
structure LcovProcessResult where
  coveragePath : List (String × CoverageData)
  resultsTree : List (String × CoverageTreeNode)

/-- `processLcovFiles`: for every file record, resolve its absolute and
package paths, skip it unless the package is exactly in the target list,
record its editor ranges, and accumulate its hit/found totals and a child
node under its package root (creating the root on first encounter). -/
def processLcovStep (config : CoverageProcessingConfig) (showCounts : Bool)
    (st : LcovProcessResult) (coverageForFile : LcovFile) : LcovProcessResult :=
  let fileAbsolutePath := getSourceFileAbsolutePath config coverageForFile.file
  let fileRelativePath := pathRelative config.currentGoWorkspace fileAbsolutePath
  let pkg := pathDirname fileRelativePath
  if pkg ∈ config.targetPackages then
    let newCoveragePath :=
      setEntry st.coveragePath fileAbsolutePath
        (lcovLinesToEditorRanges coverageForFile.lines showCounts)
    let pkgRootNode :=
      match lookupEntry st.resultsTree pkg with
      | some n => n
      | none => .mk pkg pkg 0 0 (some [])
    let updated :=
      CoverageTreeNode.mk pkgRootNode.displayName pkgRootNode.absolutePath
        (pkgRootNode.hits + coverageForFile.lines.hit)
        (pkgRootNode.lines + coverageForFile.lines.found)
        (pkgRootNode.children.map (fun cs =>
          cs ++ [.mk (pathBasename fileRelativePath) fileAbsolutePath
                   coverageForFile.lines.hit coverageForFile.lines.found none]))
    { coveragePath := newCoveragePath, resultsTree := setEntry st.resultsTree pkg updated }
  else st

/-- `processLcovFiles`: the loop over all file records from the empty maps. -/
def processLcovFiles (data : List LcovFile) (config : CoverageProcessingConfig)
    (showCounts : Bool) : LcovProcessResult :=
  data.foldl (processLcovStep config showCounts) ⟨[], []⟩

theorem lookup_setEntry {α : Type} (k q : String) (v : α) :
    ∀ (m : List (String × α)),
      lookupEntry (setEntry m k v) q = if k = q then some v else lookupEntry m q := by
  intro m
  induction m with
  | nil =>
    by_cases hq : k = q <;> simp [setEntry, lookupEntry, hq]
  | cons kv rest ih =>
    obtain ⟨k1, v1⟩ := kv
    simp only [setEntry]
    by_cases h1 : k1 = k
    · subst h1
      simp only [if_pos rfl, lookupEntry]
      by_cases hq : k1 = q
      · subst hq; simp [lookupEntry]
      · simp [lookupEntry, hq]
    · rw [if_neg h1]
      simp only [lookupEntry]
      by_cases hq : k1 = q
      · subst hq
        rw [if_pos rfl, if_neg (fun he => h1 he.symm)]
        simp [lookupEntry]
      · rw [if_neg hq, ih]
        by_cases hkq : k = q
        · rw [if_pos hkq, if_pos hkq]
        · rw [if_neg hkq, if_neg hkq, if_neg hq]

theorem CoverageTreeNode.children_mk (a b : String) (h l : Int)
    (c : Option (List CoverageTreeNode)) : (CoverageTreeNode.mk a b h l c).children = c := rfl

theorem CoverageTreeNode.hits_mk (a b : String) (h l : Int)
    (c : Option (List CoverageTreeNode)) : (CoverageTreeNode.mk a b h l c).hits = h := rfl

theorem CoverageTreeNode.lines_mk (a b : String) (h l : Int)
    (c : Option (List CoverageTreeNode)) : (CoverageTreeNode.mk a b h l c).lines = l := rfl

/-- The rollup invariant: every package node in the tree map is keyed by an
in-scope package and totals exactly its children's totals. -/
def TreeInv (targets : List String) (m : List (String × CoverageTreeNode)) : Prop :=
  ∀ pkg node, lookupEntry m pkg = some node →
    pkg ∈ targets ∧
    ∃ cs, node.children = some cs ∧
      node.hits = (cs.map CoverageTreeNode.hits).sum ∧
      node.lines = (cs.map CoverageTreeNode.lines).sum

theorem processLcovStep_inv (config : CoverageProcessingConfig) (sc : Bool)
    (st : LcovProcessResult) (f : LcovFile)
    (hinv : TreeInv config.targetPackages st.resultsTree) :
    TreeInv config.targetPackages (processLcovStep config sc st f).resultsTree := by
  unfold processLcovStep
  by_cases hmem :
      pathDirname (pathRelative config.currentGoWorkspace
        (getSourceFileAbsolutePath config f.file)) ∈ config.targetPackages
  · simp only [if_pos hmem]
    intro pkg node hlook
    rw [lookup_setEntry] at hlook
    by_cases hpkg :
        pathDirname (pathRelative config.currentGoWorkspace
          (getSourceFileAbsolutePath config f.file)) = pkg
    · rw [if_pos hpkg] at hlook
      have hnode := Option.some.inj hlook
      refine ⟨hpkg ▸ hmem, ?_⟩
      rw [← hnode]
      cases hroot : lookupEntry st.resultsTree
          (pathDirname (pathRelative config.currentGoWorkspace
            (getSourceFileAbsolutePath config f.file))) with
      | some n =>
        obtain ⟨-, cs, hcs, hh, hl⟩ := hinv _ n hroot
        refine ⟨cs ++ [.mk (pathBasename (pathRelative config.currentGoWorkspace
              (getSourceFileAbsolutePath config f.file)))
            (getSourceFileAbsolutePath config f.file) f.lines.hit f.lines.found none],
          ?_, ?_, ?_⟩
        · simp [CoverageTreeNode.children_mk, hcs]
        · simp [CoverageTreeNode.hits_mk, hh]
        · simp [CoverageTreeNode.lines_mk, hl]
      | none =>
        refine ⟨[.mk (pathBasename (pathRelative config.currentGoWorkspace
              (getSourceFileAbsolutePath config f.file)))
            (getSourceFileAbsolutePath config f.file) f.lines.hit f.lines.found none],
          ?_, ?_, ?_⟩
        · simp [CoverageTreeNode.children_mk]
        · simp [CoverageTreeNode.hits_mk]
        · simp [CoverageTreeNode.lines_mk]
    · rw [if_neg hpkg] at hlook
      exact hinv pkg node hlook
  · simp only [if_neg hmem]
    exact hinv

/-- Claim C9: after processing any sequence of per-file LCOV records, every
package node of the rollup tree is keyed by a package exactly present in the
in-scope target list, carries children, and its hit and line totals equal
the sums of its children's. -/
theorem C9_invariant (data : List LcovFile) (config : CoverageProcessingConfig)
    (showCounts : Bool) (pkg : String) (node : CoverageTreeNode)
    (h : lookupEntry (processLcovFiles data config showCounts).resultsTree pkg = some node) :
    pkg ∈ config.targetPackages ∧
    ∃ cs, node.children = some cs ∧
      node.hits = (cs.map CoverageTreeNode.hits).sum ∧
      node.lines = (cs.map CoverageTreeNode.lines).sum := by
  have main : ∀ (ds : List LcovFile) (st : LcovProcessResult),
      TreeInv config.targetPackages st.resultsTree →
      TreeInv config.targetPackages
        (ds.foldl (processLcovStep config showCounts) st).resultsTree := by
    intro ds
    induction ds with
    | nil => intro st h0; exact h0
    | cons f rest ih =>
      intro st h0
      rw [List.foldl_cons]
      exact ih _ (processLcovStep_inv config showCounts st f h0)
  have hempty : TreeInv config.targetPackages ([] : List (String × CoverageTreeNode)) := by
    intro pkg node hlook
    simp [lookupEntry] at hlook
  exact main data ⟨[], []⟩ hempty pkg node h

/-- The concrete configuration of the claim C9 witness. -/
def c9config : CoverageProcessingConfig :=
  { bazelWorkspaceRoot := "/root", currentGoWorkspace := "/root/src",
    targetPackages := ["code/pkg"], generatedFilePrefix := "bazel-out/" }

/-- One coverage record under the in-scope package. -/
def c9data : List LcovFile :=
  [⟨"src/code/pkg/foo.go", ⟨3, 2, [⟨1, 1⟩, ⟨2, 1⟩, ⟨3, 0⟩]⟩⟩]

/-- The resulting package node for the claim C9 witness. -/
def c9node : CoverageTreeNode :=
  .mk "code/pkg" "code/pkg" 2 3 (some [.mk "foo.go" "/root/src/code/pkg/foo.go" 2 3 none])

/-- Claim C9, witness: the invariant applied to a concrete record whose
package node carries one child summing to its totals. -/
theorem C9_witness :
    "code/pkg" ∈ c9config.targetPackages ∧
    ∃ cs, c9node.children = some cs ∧
      c9node.hits = (cs.map CoverageTreeNode.hits).sum ∧
      c9node.lines = (cs.map CoverageTreeNode.lines).sum :=
  C9_invariant c9data c9config false "code/pkg" c9node rfl

/-! ### Test identity resolver (`BazelGoTestRunner`)

The mutable VS Code `TestItem` tree is modelled as an arena: nodes are keyed
by allocation order (a fresh natural number per created item, standing for
object identity); each node stores its stable GoTest id, its label, a weak
parent key and its ordered child keys.  The helpers `GoTest.id`,
`GoTest.parseId`, `extractInstanceTestName`, `GoTestResolver.getOrCreateSubTest`
and the superclass `GoTestRunner.resolveTestName` live outside src/ and are
modelled from the spec where noted. -/

/-- Modelled from the spec: the stable test id of `GoTest.id`/`GoTest.parseId`
(goTest/utils, not under src/), deterministically derived from the containing
document uri, the kind and the dotted name — never randomly assigned. -/
structure GoTestId where
  uri : String
  kind : String
  name : String
  deriving Repr, DecidableEq

/-- One `TestItem` of the live tree: stable id, display label, weak parent
back-reference and owned, ordered children. -/
structure TestNodeData where
  id : GoTestId
  label : String
  parent : Option Nat
  children : List Nat
  deriving Repr, DecidableEq

/-- The resolver state: the arena of test items plus the two marker sets
(`isTestSuiteFunc`, `isDynamicSubtest`). -/
structure ResolverState where
  nextKey : Nat
  nodes : List (Nat × TestNodeData)
  isTestSuiteFunc : List Nat
  isDynamicSubtest : List Nat
  deriving Repr, DecidableEq

/-- Arena lookup by node key. -/
def lookupNode (st : ResolverState) (k : Nat) : Option TestNodeData :=
  lookupKey st.nodes k
where
  lookupKey : List (Nat × TestNodeData) → Nat → Option TestNodeData
    | [], _ => none
    | (k', d) :: rest, k => if k' = k then some d else lookupKey rest k

/-- The child of `parentChildren` whose label equals `label`. -/
def findChildByLabel (st : ResolverState) (parentChildren : List Nat) (label : String) :
    Option Nat :=
  parentChildren.find? (fun ck =>
    match lookupNode st ck with
    | some d => d.label == label
    | none => false)

/-- Modelled from the spec: `GoTestResolver.getOrCreateSubTest`
(goTest/resolve, not under src/) — returns the existing child with the given
label, else creates a child item whose stable id derives from the parent's
uri and kind and the given name, appends it to the parent's children, and
marks it in the dynamic-subtest set when `dynamic` is set; creation is
idempotent.  Returns `none` only when the parent key is absent from the arena
(unreachable for a live `TestItem`). -/
def getOrCreateSubTest (st : ResolverState) (parentK : Nat) (label name : String)
    (dynamic : Bool) : ResolverState × Option Nat :=
  match lookupNode st parentK with
  | none => (st, none)
  | some pd =>
    match findChildByLabel st pd.children label with
    | some k => (st, some k)
    | none =>
      let k := st.nextKey
      let child : TestNodeData :=
        { id := ⟨pd.id.uri, pd.id.kind, name⟩, label := label,
          parent := some parentK, children := [] }
      ({ nextKey := k + 1,
         nodes := (st.nodes.map (fun kv =>
             (kv.1, if kv.1 = parentK then { kv.2 with children := kv.2.children ++ [k] }
               else kv.2))) ++ [(k, child)],
         isTestSuiteFunc := st.isTestSuiteFunc,
         isDynamicSubtest :=
           if dynamic then st.isDynamicSubtest ++ [k] else st.isDynamicSubtest },
       some k)

/-- JS `s.indexOf(c, start)` over the character list, as an `Option`
(`none` for `-1`). -/
def idxFrom : List Char → Char → Nat → Option Nat
  | [], _, _ => none
  | c :: rest, t, 0 => if c = t then some 0 else (idxFrom rest t 0).map (· + 1)
  | _ :: rest, t, n + 1 => (idxFrom rest t n).map (· + 1)

theorem idxFrom_ge : ∀ (cs : List Char) (t : Char) (s k : Nat),
    idxFrom cs t s = some k → s ≤ k := by
  intro cs
  induction cs with
  | nil => intro t s k h; simp [idxFrom] at h
  | cons c rest ih =>
    intro t s k h
    cases s with
    | zero => exact Nat.zero_le k
    | succ n =>
      simp only [idxFrom, Option.map_eq_some'] at h
      obtain ⟨k', hk', rfl⟩ := h
      exact Nat.succ_le_succ (ih t n k' hk')

/-- JS `name.substring(0, n)`. -/
def strTake (s : String) (n : Nat) : String :=
  ⟨s.data.take n⟩

/-- The body of `resolveSubtest` with the segment end already normalised
(`-1` mapped to the string length): get-or-create the dynamic subtest
labelled by the name-so-far and, while a `'/'` remains at the segment end,
recurse with the next segment end. -/
def resolveSubtestFrom (st : ResolverState) (parentK : Nat) (name : String) (seEnd : Nat) :
    ResolverState × Option Nat :=
  match getOrCreateSubTest st parentK (strTake name seEnd) (strTake name seEnd) true with
  | (st1, none) => (st1, none)
  | (st1, some cur) =>
    if hsl : name.data.get? seEnd = some '/' then
      resolveSubtestFrom st1 cur name
        (match idxFrom name.data '/' (seEnd + 1) with
          | some k2 => k2
          | none => name.length)
    else (st1, some cur)
  termination_by name.length - seEnd
  decreasing_by
  have h1 : seEnd < name.data.length := by
    have := List.get?_eq_some.mp hsl
    exact this.1
  have h3 : name.length = name.data.length := rfl
  cases hidx : idxFrom name.data '/' (seEnd + 1) with
  | some k2 =>
    have h2 : seEnd + 1 ≤ k2 := idxFrom_ge name.data '/' (seEnd + 1) k2 hidx
    simp only [hidx]
    omega
  | none =>
    simp only [hidx]
    omega

/-- `BazelGoTestRunner.resolveSubtest(parent, name, start)` as called without
an explicit segment end: the initial end is the first `'/'` at or after
`start` (the whole string when there is none); the recursive calls always
pass an explicit end, so `start` only seeds this computation. -/
def resolveSubtest (st : ResolverState) (parentK : Nat) (name : String) (start : Nat) :
    ResolverState × Option Nat :=
  let seEnd :=
    match idxFrom name.data '/' start with
    | some k => k
    | none => name.length
  resolveSubtestFrom st parentK name seEnd

/-- Arena well-formedness: every node key and every child key is below the
allocation counter. -/
def ArenaWF (st : ResolverState) : Prop :=
  ∀ kv ∈ st.nodes, kv.1 < st.nextKey ∧ ∀ c ∈ kv.2.children, c < st.nextKey

/-- Arena extension: the second state keeps every node of the first with the
same id, label and parent and possibly more children (appended at the end),
and allocates only fresh keys. -/
def ArenaExt (st st2 : ResolverState) : Prop :=
  st.nextKey ≤ st2.nextKey ∧
  (∀ k d, lookupNode st k = some d →
      ∃ d2, lookupNode st2 k = some d2 ∧ d2.label = d.label ∧ d2.id = d.id ∧
        d2.parent = d.parent ∧ ∃ ext, d2.children = d.children ++ ext) ∧
  (∀ k, k < st.nextKey → lookupNode st k = none → lookupNode st2 k = none)

theorem arenaExt_refl (st : ResolverState) : ArenaExt st st :=
  ⟨Nat.le_refl _, fun _ d h => ⟨d, h, rfl, rfl, rfl, [], by simp⟩, fun _ _ h => h⟩

theorem arenaExt_trans {a b c : ResolverState} (hab : ArenaExt a b) (hbc : ArenaExt b c) :
    ArenaExt a c := by
  obtain ⟨hn1, hs1, hm1⟩ := hab
  obtain ⟨hn2, hs2, hm2⟩ := hbc
  refine ⟨Nat.le_trans hn1 hn2, ?_, ?_⟩
  · intro k d h
    obtain ⟨d2, h2, hl2, hi2, hp2, e1, he1⟩ := hs1 k d h
    obtain ⟨d3, h3, hl3, hi3, hp3, e2, he2⟩ := hs2 k d2 h2
    exact ⟨d3, h3, hl3.trans hl2, hi3.trans hi2, hp3.trans hp2, e1 ++ e2,
      by rw [he2, he1, List.append_assoc]⟩
  · intro k hk h
    exact hm2 k (Nat.lt_of_lt_of_le hk hn1) (hm1 k hk h)

theorem lookupKey_mem : ∀ (l : List (Nat × TestNodeData)) (k : Nat) (d : TestNodeData),
    lookupNode.lookupKey l k = some d → (k, d) ∈ l := by
  intro l
  induction l with
  | nil => intro k d h; simp [lookupNode.lookupKey] at h
  | cons kv rest ih =>
    intro k d h
    obtain ⟨k1, d1⟩ := kv
    by_cases h1 : k1 = k
    · subst h1
      have hd : d1 = d := by simpa [lookupNode.lookupKey] using h
      subst hd
      exact List.mem_cons_self _ _
    · simp only [lookupNode.lookupKey, if_neg h1] at h
      exact List.mem_cons_of_mem _ (ih k d h)

theorem lookupNode_mem (st : ResolverState) (k : Nat) (d : TestNodeData)
    (h : lookupNode st k = some d) : (k, d) ∈ st.nodes :=
  lookupKey_mem st.nodes k d h

theorem find?_congrList {α : Type} (p q : α → Bool) :
    ∀ l : List α, (∀ x ∈ l, p x = q x) → l.find? p = l.find? q := by
  intro l
  induction l with
  | nil => intro _; rfl
  | cons x rest ih =>
    intro h
    rw [List.find?_cons, List.find?_cons, h x (List.mem_cons_self _ _),
      ih (fun y hy => h y (List.mem_cons_of_mem _ hy))]

/-- The per-child predicate of `findChildByLabel` is unchanged by an arena
extension for keys already allocated. -/
theorem findChild_pred_mono (st st2 : ResolverState) (label : String)
    (hext : ArenaExt st st2) (c : Nat) (hc : c < st.nextKey) :
    (match lookupNode st2 c with
      | some d => d.label == label
      | none => false)
      = (match lookupNode st c with
          | some d => d.label == label
          | none => false) := by
  obtain ⟨-, hsome, hnone⟩ := hext
  cases h : lookupNode st c with
  | some d =>
    obtain ⟨d2, h2, hl2, -, -, -⟩ := hsome c d h
    simp only [h2, hl2]
  | none => simp only [hnone c hc h]

theorem findChildByLabel_mono (st st2 : ResolverState) (label : String)
    (hext : ArenaExt st st2) (children : List Nat)
    (hch : ∀ c ∈ children, c < st.nextKey) :
    findChildByLabel st2 children label = findChildByLabel st children label := by
  unfold findChildByLabel
  exact find?_congrList _ _ children
    (fun c hc => findChild_pred_mono st st2 label hext c (hch c hc))

theorem lookupKey_map (parentK : Nat) (upd : TestNodeData → TestNodeData) :
    ∀ (l : List (Nat × TestNodeData)) (q : Nat),
      lookupNode.lookupKey
          (l.map (fun kv => (kv.1, if kv.1 = parentK then upd kv.2 else kv.2))) q
        = (lookupNode.lookupKey l q).map (fun d => if q = parentK then upd d else d) := by
  intro l
  induction l with
  | nil => intro q; rfl
  | cons kv rest ih =>
    intro q
    obtain ⟨k1, d1⟩ := kv
    by_cases hq : k1 = q
    · subst hq
      simp [lookupNode.lookupKey]
    · simp [lookupNode.lookupKey, hq, ih]

theorem lookupKey_append (l1 l2 : List (Nat × TestNodeData)) (q : Nat) :
    lookupNode.lookupKey (l1 ++ l2) q
      = (lookupNode.lookupKey l1 q).or (lookupNode.lookupKey l2 q) := by
  induction l1 with
  | nil => simp [lookupNode.lookupKey]
  | cons kv rest ih =>
    obtain ⟨k1, d1⟩ := kv
    by_cases hq : k1 = q
    · subst hq
      simp [lookupNode.lookupKey]
    · simp [lookupNode.lookupKey, hq, ih]

theorem getOrCreate_spec (st : ResolverState) (parentK : Nat) (label name : String)
    (dyn : Bool) (hwf : ArenaWF st) (hp : (lookupNode st parentK).isSome) :
    ∃ st1 k, getOrCreateSubTest st parentK label name dyn = (st1, some k) ∧
      ArenaWF st1 ∧ ArenaExt st st1 ∧ (lookupNode st1 k).isSome ∧
      (lookupNode st1 parentK).isSome ∧
      ∀ st2, ArenaExt st1 st2 →
        getOrCreateSubTest st2 parentK label name dyn = (st2, some k) := by
  obtain ⟨pd, hpd⟩ := Option.isSome_iff_exists.mp hp
  have hchlt : ∀ c ∈ pd.children, c < st.nextKey :=
    (hwf _ (lookupNode_mem st parentK pd hpd)).2
  cases hfind : findChildByLabel st pd.children label with
  | some k =>
    refine ⟨st, k, ?_, hwf, arenaExt_refl st, ?_, hp, ?_⟩
    · unfold getOrCreateSubTest
      simp only [hpd, hfind]
    · unfold findChildByLabel at hfind
      have hk := List.find?_some hfind
      cases hlk : lookupNode st k with
      | some d => simp [hlk]
      | none => rw [hlk] at hk; simp at hk
    · intro st2 hext
      obtain ⟨pd2, hpd2, -, -, -, ext, hch2⟩ := hext.2.1 parentK pd hpd
      have hfind2 : findChildByLabel st2 pd2.children label = some k := by
        rw [hch2]
        unfold findChildByLabel at hfind ⊢
        rw [List.find?_append,
          find?_congrList _ _ pd.children
            (fun c hc => findChild_pred_mono st st2 label hext c (hchlt c hc)),
          hfind]
        rfl
      unfold getOrCreateSubTest
      simp only [hpd2, hfind2]
  | none =>
    have hkn : lookupNode st st.nextKey = none := by
      cases h : lookupNode st st.nextKey with
      | none => rfl
      | some d => exact absurd ((hwf _ (lookupNode_mem _ _ _ h)).1) (Nat.lt_irrefl _)
    set k := st.nextKey with hkdef
    set child : TestNodeData :=
      { id := ⟨pd.id.uri, pd.id.kind, name⟩, label := label,
        parent := some parentK, children := [] } with hchilddef
    set st1 : ResolverState :=
      { nextKey := k + 1,
        nodes := (st.nodes.map (fun kv =>
            (kv.1, if kv.1 = parentK then { kv.2 with children := kv.2.children ++ [k] }
              else kv.2))) ++ [(k, child)],
        isTestSuiteFunc := st.isTestSuiteFunc,
        isDynamicSubtest :=
          if dyn then st.isDynamicSubtest ++ [k] else st.isDynamicSubtest } with hst1def
    have hnodes1 : st1.nodes
        = (st.nodes.map (fun kv =>
            (kv.1, if kv.1 = parentK then { kv.2 with children := kv.2.children ++ [k] }
              else kv.2))) ++ [(k, child)] := by
      rw [hst1def]
    have hlook1 : ∀ q, lookupNode st1 q
        = match lookupNode st q with
          | some d =>
            some (if q = parentK then { d with children := d.children ++ [k] } else d)
          | none => if k = q then some child else none := by
      intro q
      show lookupNode.lookupKey st1.nodes q = _
      rw [hnodes1, lookupKey_append,
        lookupKey_map parentK (fun d => { d with children := d.children ++ [k] })]
      cases hq : lookupNode st q with
      | some d =>
        have hq2 : lookupNode.lookupKey st.nodes q = some d := hq
        rw [hq2]
        simp [Option.or]
      | none =>
        have hq2 : lookupNode.lookupKey st.nodes q = none := hq
        rw [hq2]
        by_cases hkq : k = q <;> simp [Option.or, lookupNode.lookupKey, hkq]
    have hres : getOrCreateSubTest st parentK label name dyn = (st1, some k) := by
      unfold getOrCreateSubTest
      simp only [hpd, hfind]
    have hwf1 : ArenaWF st1 := by
      intro kv hkv
      rw [hnodes1] at hkv
      have hnext1 : st1.nextKey = k + 1 := by rw [hst1def]
      rw [hnext1]
      simp only [List.mem_append, List.mem_map, List.mem_singleton] at hkv
      rcases hkv with ⟨kv0, hkv0, hmap⟩ | rfl
      · obtain ⟨h0, h0c⟩ := hwf kv0 hkv0
        rw [← hmap]
        by_cases h1 : kv0.1 = parentK
        · rw [if_pos h1]
          refine ⟨Nat.lt_succ_of_lt h0, ?_⟩
          intro c hc
          simp only [List.mem_append, List.mem_singleton] at hc
          rcases hc with hc | rfl
          · exact Nat.lt_succ_of_lt (h0c c hc)
          · exact Nat.lt_succ_self _
        · rw [if_neg h1]
          exact ⟨Nat.lt_succ_of_lt h0, fun c hc => Nat.lt_succ_of_lt (h0c c hc)⟩
      · refine ⟨Nat.lt_succ_self _, ?_⟩
        intro c hc
        rw [hchilddef] at hc
        simp at hc
    have hext1 : ArenaExt st st1 := by
      have hnext1 : st1.nextKey = k + 1 := by rw [hst1def]
      refine ⟨by rw [hnext1]; exact Nat.le_succ _, ?_, ?_⟩
      · intro q d hq
        by_cases hqp : q = parentK
        · subst hqp
          refine ⟨{ d with children := d.children ++ [k] }, ?_, rfl, rfl, rfl, [k], rfl⟩
          rw [hlook1 q]
          simp [hq]
        · refine ⟨d, ?_, rfl, rfl, rfl, [], by simp⟩
          rw [hlook1 q]
          simp [hq, hqp]
      · intro q hqlt hq
        rw [hlook1 q]
        have hkq : ¬ k = q := fun he => absurd (he ▸ hqlt) (Nat.lt_irrefl _)
        simp [hq, hkq]
    have hk1 : lookupNode st1 k = some child := by
      rw [hlook1 k]
      simp [hkn]
    have hpar1 : lookupNode st1 parentK
        = some { pd with children := pd.children ++ [k] } := by
      rw [hlook1 parentK]
      simp [hpd]
    refine ⟨st1, k, hres, hwf1, hext1, by rw [hk1]; rfl, by rw [hpar1]; rfl, ?_⟩
    intro st2 hext12
    have hext02 : ArenaExt st st2 := arenaExt_trans hext1 hext12
    obtain ⟨pd2, hpd2, -, -, -, ext, hch2⟩ :=
      hext12.2.1 parentK { pd with children := pd.children ++ [k] } hpar1
    obtain ⟨child2, hchild2, hcl2, -, -, -⟩ := hext12.2.1 k child hk1
    have hfind2 : findChildByLabel st2 pd2.children label = some k := by
      rw [hch2]
      show ((pd.children ++ [k]) ++ ext).find? _ = some k
      rw [List.find?_append, List.find?_append,
        find?_congrList _ _ pd.children
          (fun c hc => findChild_pred_mono st st2 label hext02 c (hchlt c hc))]
      unfold findChildByLabel at hfind
      rw [hfind]
      have hlk2 : lookupNode st2 k = some child2 := hchild2
      have hcl2b : child2.label = label := by rw [hcl2, hchilddef]
      simp [List.find?_cons, hlk2, hcl2b, Option.or]
    unfold getOrCreateSubTest
    simp only [hpd2, hfind2]

theorem resolveSubtestFrom_spec (name : String) :
    ∀ (m : Nat) (st : ResolverState) (parentK seEnd : Nat),
      name.length - seEnd = m → ArenaWF st → (lookupNode st parentK).isSome →
      ∃ stf r, resolveSubtestFrom st parentK name seEnd = (stf, r) ∧ ArenaWF stf ∧
        ArenaExt st stf ∧
        ∀ st2, ArenaExt stf st2 → resolveSubtestFrom st2 parentK name seEnd = (st2, r) := by
  intro m
  induction m using Nat.strong_induction_on with
  | _ m ih =>
    intro st parentK seEnd hm hwf hp
    obtain ⟨st1, k, hgc, hwf1, hext1, hk1, hpar1, hstab⟩ :=
      getOrCreate_spec st parentK (strTake name seEnd) (strTake name seEnd) true hwf hp
    by_cases hsl : name.data.get? seEnd = some '/'
    · have hlt : seEnd < name.data.length := (List.get?_eq_some.mp hsl).1
      have hlen : name.length = name.data.length := rfl
      set nxt : Nat :=
        (match idxFrom name.data '/' (seEnd + 1) with
          | some k2 => k2
          | none => name.length) with hnxt
      have hmlt : name.length - nxt < m := by
        rw [hnxt]
        cases hidx : idxFrom name.data '/' (seEnd + 1) with
        | some k2 =>
          have h2 : seEnd + 1 ≤ k2 := idxFrom_ge name.data '/' (seEnd + 1) k2 hidx
          simp only [hidx]
          omega
        | none =>
          simp only [hidx]
          omega
      obtain ⟨stf, r, hrec, hwff, hextf, hstabf⟩ :=
        ih (name.length - nxt) hmlt st1 k nxt rfl hwf1 hk1
      refine ⟨stf, r, ?_, hwff, arenaExt_trans hext1 hextf, ?_⟩
      · rw [resolveSubtestFrom]
        simp only [hgc]
        rw [dif_pos hsl]
        exact hrec
      · intro st2 hext2
        rw [resolveSubtestFrom]
        simp only [hstab st2 (arenaExt_trans hextf hext2)]
        rw [dif_pos hsl]
        exact hstabf st2 hext2
    · refine ⟨st1, some k, ?_, hwf1, hext1, ?_⟩
      · rw [resolveSubtestFrom]
        simp only [hgc]
        rw [dif_neg hsl]
      · intro st2 hext2
        rw [resolveSubtestFrom]
        simp only [hstab st2 hext2]
        rw [dif_neg hsl]

/-! ### Claim C6 -/

/-- Claim C6: dynamic-subtest resolution is idempotent — for any parent test
case in a well-formed arena and any slash-delimited subtest path, resolving
the same path a second time returns the identical node and leaves the tree
unchanged (the same pair of state and result), so each intermediate
dynamic-subtest node is created at most once and no duplicate child is ever
produced. -/
theorem C6_resolveSubtest_idempotent (st : ResolverState) (parentK : Nat)
    (name : String) (start : Nat) (hwf : ArenaWF st)
    (hp : (lookupNode st parentK).isSome) :
    resolveSubtest (resolveSubtest st parentK name start).1 parentK name start
      = resolveSubtest st parentK name start := by
  unfold resolveSubtest
  obtain ⟨stf, r, hrec, hwff, hextf, hstabf⟩ :=
    resolveSubtestFrom_spec name _ st parentK
      (match idxFrom name.data '/' start with
        | some k => k
        | none => name.length) rfl hwf hp
  rw [hrec]
  exact hstabf stf (arenaExt_refl stf)

/-- A one-node arena for the claim C6 witness: the parent test case
`TestX`. -/
def c6state : ResolverState :=
  { nextKey := 1,
    nodes := [(0, { id := ⟨"file:///m/x_test.go", "test", "TestX"⟩, label := "TestX",
                    parent := none, children := [] })],
    isTestSuiteFunc := [], isDynamicSubtest := [] }

/-- Claim C6, witness: resolving the two-level subtest path twice from the
concrete arena returns the identical state and node. -/
theorem C6_witness :
    resolveSubtest (resolveSubtest c6state 0 "TestX/sub/case" 6).1 0 "TestX/sub/case" 6
      = resolveSubtest c6state 0 "TestX/sub/case" 6 :=
  C6_resolveSubtest_idempotent c6state 0 "TestX/sub/case" 6
    (by unfold ArenaWF c6state; decide) (by decide)

/-! ### Suite-name resolution (`resolveTestName` / `formatTestCaseForFilter`) -/

/-- Modelled from the spec: strip the receiver-type prefix convention from a
dotted method identifier — an identifier of the form
`(<receiver>).<TestMethod>` (nonempty receiver with no closing parenthesis
inside, method part beginning with `Test`) yields the method part; anything
else yields the empty string. -/
def extractInstanceTestName (s : String) : String :=
  match s.data with
  | '(' :: c :: rest =>
    if c = ')' then ""
    else
      match afterReceiver rest with
      | some r => if strStartsWith (String.mk r) "Test" then String.mk r else ""
      | none => ""
  | _ => ""
where
  afterReceiver : List Char → Option (List Char)
    | [] => none
    | ')' :: rest =>
      match rest with
      | '.' :: r => some r
      | _ => none
    | _ :: rest => afterReceiver rest

/-- Modelled from the spec: the superclass `GoTestRunner.resolveTestName`
fallback of resolve step 5 — an ordinary flat-name lookup, a direct
dictionary lookup of the full name among the run's test entries. -/
def superResolveTestName (entries : List (String × Nat)) (name : String) : Option Nat :=
  match entries.find? (fun kv => kv.1 == name) with
  | some kv => some kv.2
  | none => none

/-- The body of `BazelGoTestRunner.resolveTestName`'s for-loop for one entry
of `tests`: the suite-method translation check (return the entry itself on an
exact match of suite-name/method-name, or resolve a deeper subtest from it on
a prefix match), then the suite-children scan (forEach with last assignment
winning).  The outer `some r` marks an explicit return (`r` may itself be
`none`, as when `resolveSubtest` returns undefined); `none` means the loop
continues with the updated state. -/
def resolveEntry (st : ResolverState) (name ename : String) (k : Nat) :
    ResolverState × Option (Option Nat) :=
  let m := extractInstanceTestName ename
  let b1 : Option (ResolverState × Option Nat) :=
    match lookupNode st k with
    | none => none
    | some d =>
      match d.parent with
      | none => none
      | some p =>
        if p ∈ st.isTestSuiteFunc ∧ m ≠ "" then
          match lookupNode st p with
          | none => none
          | some pd =>
            if name = pd.id.name ++ "/" ++ m then some (st, some k)
            else if strStartsWith name (pd.id.name ++ "/" ++ m ++ "/") then
              some (resolveSubtest st k name (pd.id.name ++ "/" ++ m ++ "/").length)
            else none
        else none
  match b1 with
  | some (st1, r) => (st1, some r)
  | none =>
    if k ∈ st.isTestSuiteFunc then
      match lookupNode st k with
      | none => (st, none)
      | some d =>
        let res := d.children.foldl
          (fun acc c =>
            match lookupNode acc.1 c with
            | none => acc
            | some cd =>
              let testMethodName := ename ++ "/" ++ extractInstanceTestName cd.id.name
              if name = testMethodName then (acc.1, some c)
              else if strStartsWith name (testMethodName ++ "/") then
                resolveSubtest acc.1 c name (testMethodName.length + 1)
              else acc)
          (st, (none : Option Nat))
        match res.2 with
        | some c => (res.1, some (some c))
        | none => (res.1, none)
    else (st, none)

/-- The for-loop of `BazelGoTestRunner.resolveTestName` over the keys of
`tests` (a `Record`, so keys are unique and iterate in insertion order; the
entry list carries each key with its test item).  An explicit return inside
the loop short-circuits. -/
def resolveLoop (st : ResolverState) (entries : List (String × Nat)) (name : String) :
    ResolverState × Option (Option Nat) :=
  match entries with
  | [] => (st, none)
  | (ename, k) :: rest =>
    match resolveEntry st name ename k with
    | (st1, some r) => (st1, some r)
    | (st1, none) => resolveLoop st1 rest name

/-- `BazelGoTestRunner.resolveTestName(tests, name)`: empty names resolve to
nothing; otherwise the suite-aware loop runs first and the superclass
flat-name lookup is the fallback. -/
def resolveTestName (st : ResolverState) (entries : List (String × Nat)) (name : String) :
    ResolverState × Option Nat :=
  if name = "" then (st, none)
  else
    match resolveLoop st entries name with
    | (st1, some r) => (st1, r)
    | (st1, none) => (st1, superResolveTestName entries name)

/-- `BazelGoTestRunner.formatTestCaseForFilter(testFunctionName,
currentTestCase)`: when the current test case exists, has a parent marked as
a test-suite function and the function name carries a receiver-type
qualifier, the result is the suite name joined to the stripped method name;
in every other case the input name is returned unchanged. -/
def formatTestCaseForFilter (st : ResolverState) (testFunctionName : String)
    (currentTestCase : Option Nat) : String :=
  match currentTestCase with
  | none => testFunctionName
  | some k =>
    let m := extractInstanceTestName testFunctionName
    match lookupNode st k with
    | none => testFunctionName
    | some d =>
      match d.parent with
      | none => testFunctionName
      | some p =>
        if p ∈ st.isTestSuiteFunc ∧ m ≠ "" then
          match lookupNode st p with
          | none => testFunctionName
          | some pd => pd.id.name ++ "/" ++ m
        else testFunctionName

/-! ### Claim C1 -/

/-- Claim C1: for a suite named `S` containing a test method whose reported
identifier is `(*T).TestX` (an entry of the run's test map pointing at the
suite's child item), resolving the flat name `S/TestX` returns that child
item without mutating the tree, and `formatTestCaseForFilter` applied to the
method's identifier and test item returns exactly `S/TestX` with the
receiver-type qualifier stripped; for any test item whose parent is not a
known suite, the helper returns the input name unchanged. -/
theorem C1_suite_resolution (st : ResolverState) (k p : Nat) (d pd : TestNodeData)
    (T X S : String) (hk : lookupNode st k = some d) (hpar : d.parent = some p)
    (hsuite : p ∈ st.isTestSuiteFunc) (hpd : lookupNode st p = some pd)
    (hS : pd.id.name = S)
    (hX : extractInstanceTestName ("(*" ++ T ++ ")." ++ X) = X) (hXne : X ≠ "") :
    resolveTestName st [("(*" ++ T ++ ")." ++ X, k)] (S ++ "/" ++ X) = (st, some k) ∧
    formatTestCaseForFilter st ("(*" ++ T ++ ")." ++ X) (some k) = S ++ "/" ++ X ∧
    (∀ (name2 : String) (k2 : Nat) (d2 : TestNodeData), lookupNode st k2 = some d2 →
      (∀ p2, d2.parent = some p2 → p2 ∉ st.isTestSuiteFunc) →
      formatTestCaseForFilter st name2 (some k2) = name2) := by
  have hne : S ++ "/" ++ X ≠ "" := by
    intro h
    have hlen := congrArg String.length h
    simp only [String.length_append] at hlen
    have : ("/" : String).length = 1 := rfl
    have h0 : ("" : String).length = 0 := rfl
    omega
  have hentry : resolveEntry st (S ++ "/" ++ X) ("(*" ++ T ++ ")." ++ X) k
      = (st, some (some k)) := by
    rw [resolveEntry]
    simp only [hk, hpar, hX, hpd, hS]
    rw [if_pos ⟨hsuite, hXne⟩, if_pos trivial]
  refine ⟨?_, ?_, ?_⟩
  · rw [resolveTestName, if_neg hne, resolveLoop]
    simp only [hentry]
  · rw [formatTestCaseForFilter]
    simp only [hk, hpar, hX, hpd, hS]
    rw [if_pos ⟨hsuite, hXne⟩]
  · intro name2 k2 d2 hk2 hnp
    rw [formatTestCaseForFilter]
    simp only [hk2]
    cases hp2 : d2.parent with
    | none => rfl
    | some p2 =>
      dsimp only
      rw [if_neg]
      intro hcond
      exact hnp p2 hp2 hcond.1

/-- The suite node of the claim C1 witness arena. -/
def c1d1 : TestNodeData :=
  { id := ⟨"file:///m/s_test.go", "test", "MySuite"⟩, label := "MySuite",
    parent := none, children := [2] }

/-- The suite-method node of the claim C1 witness arena, reported as
`(*mySuiteType).TestCase1`. -/
def c1d2 : TestNodeData :=
  { id := ⟨"file:///m/s_test.go", "test", "(*mySuiteType).TestCase1"⟩,
    label := "(*mySuiteType).TestCase1", parent := some 1, children := [3] }

/-- A node of the claim C1 witness arena whose parent is not a suite. -/
def c1d3 : TestNodeData :=
  { id := ⟨"file:///m/s_test.go", "test", "(*mySuiteType).TestCase1/sub"⟩,
    label := "sub", parent := some 2, children := [] }

/-- The concrete arena of the claim C1 witness: suite `MySuite` (key 1,
marked as a test-suite function) with method child key 2 and a non-suite
grandchild key 3. -/
def c1state : ResolverState :=
  { nextKey := 4, nodes := [(1, c1d1), (2, c1d2), (3, c1d3)],
    isTestSuiteFunc := [1], isDynamicSubtest := [] }

/-- Claim C1, witness: in the concrete arena, resolving `MySuite/TestCase1`
returns the suite-method item (key 2) and leaves the tree unchanged, the
filter helper maps its identifier to `MySuite/TestCase1`, and the helper
leaves a name unchanged on the node whose parent is not a suite. -/
theorem C1_witness :
    resolveTestName c1state [("(*mySuiteType).TestCase1", 2)] "MySuite/TestCase1"
      = (c1state, some 2) ∧
    formatTestCaseForFilter c1state "(*mySuiteType).TestCase1" (some 2)
      = "MySuite/TestCase1" ∧
    formatTestCaseForFilter c1state "TestPlain" (some 3) = "TestPlain" := by
  have h := C1_suite_resolution c1state 2 1 c1d2 c1d1 "mySuiteType" "TestCase1" "MySuite"
    rfl rfl (by decide) rfl rfl (by decide) (by decide)
  have hI : ("(*" ++ "mySuiteType" ++ ")." ++ "TestCase1" : String)
      = "(*mySuiteType).TestCase1" := by decide
  have hN : ("MySuite" ++ "/" ++ "TestCase1" : String) = "MySuite/TestCase1" := by decide
  rw [hI, hN] at h
  refine ⟨h.1, h.2.1, ?_⟩
  refine h.2.2 "TestPlain" 3 c1d3 rfl ?_
  intro p2 hp2
  have hp2' : some 2 = some p2 := hp2
  cases hp2'
  decide

end VBazel
